import Mathlib

/-!
# redmine-activity-today: a shallow embedding of `main.go`

The program reads a list of Redmine sources, fetches the issues of each one over
HTTP, groups them by assignee in a Go map, and renders the map with an
`html/template`.  The embedding follows `main.go` function by function.

* Go `int` values are `Int` (no arithmetic is done on them).
* Go strings are `String`; the values that reach the program are decoded JSON and
  YAML text, which is valid UTF-8.
* A Go `map[string][]Issue` is an association list; `index` is `m[k]`, `assign` is
  `m[k] = v`.  The order in which `range` visits a map is not fixed by Go, so it is
  a component of the environment (`Env.Range`).
* A Go result pair `(UserIssues, error)` is a pair of options: `none` is `nil`.
* The world outside the program (the HTTP client, the JSON decoder, the map
  iteration order) is the record `Env`.  The calls made to `fetchRedmineIssues`
  are logged in an explicit list, which the HTTP client may inspect, so that a
  remote may answer differently from one call to the next.
-/

namespace RedmineActivity

/-! ## Data model (`main.go` lines 15-55) -/

/-- The Go struct `RedmineConfig`: one configured Redmine instance. -/
structure RedmineConfig where
  URL : String
  APIKey : String
  QueryID : Int
  Limit : Int
deriving DecidableEq, Repr

/-- The Go struct `Config`. -/
structure Config where
  RedmineURLs : List RedmineConfig
deriving DecidableEq, Repr

/-- The Go struct `Named`: a nested JSON object of which only `name` is read. -/
structure Named where
  Name : String
deriving DecidableEq, Repr

/-- Go's zero value of `Named`, which is what the decoder leaves in a field whose
JSON key is absent from the record. -/
def Named.zero : Named := ⟨""⟩

/-- One element of `RedmineResponse.Issues` (an anonymous struct in the source). -/
structure RedmineItem where
  ID : Int
  Project : Named
  Tracker : Named
  Status : Named
  AssignedTo : Named
  Subject : String
deriving DecidableEq, Repr

/-- The Go struct `RedmineResponse`. -/
structure RedmineResponse where
  Issues : List RedmineItem
deriving DecidableEq, Repr

/-- The Go struct `Issue`: ticket information for display. -/
structure Issue where
  Ticket : Int
  Project : String
  Tracker : String
  Status : String
  Name : String
  Subject : String
  Link : String
deriving DecidableEq, Repr

/-- The Go type `UserIssues = map[string][]Issue`, as an association list. -/
abbrev UserIssues := List (String × List Issue)

namespace UserIssues

/-- The Go expression `m[k]`: the value stored under `k`, the nil slice when the
key is absent. -/
def index : UserIssues → String → List Issue
  | [], _ => []
  | (k', v) :: m, k => if k' = k then v else index m k

/-- The Go statement `m[k] = v`: replaces the entry of `k`, or adds one. -/
def assign : UserIssues → String → List Issue → UserIssues
  | [], k, v => [(k, v)]
  | (k', v') :: m, k, v => if k' = k then (k, v) :: m else (k', v') :: assign m k v

/-- The keys of the map. -/
def keys (m : UserIssues) : List String := m.map Prod.fst

/-- All the issues held in the map, over all keys. -/
def allIssues (m : UserIssues) : List Issue := m.flatMap Prod.snd

end UserIssues

/-! ## The environment -/

/-- An HTTP response as the program sees it: the status code, and what
`io.ReadAll(resp.Body)` gives. -/
structure Response (ε : Type) where
  StatusCode : Nat
  Body : Except ε String

/-- The library calls of `fetchRedmineIssues` and `combineRedmineIssues`.
`ε` is the type of Go error values. -/
structure Env (ε : Type) where
  /-- Models `http.NewRequest("GET", url, nil)`: the error, when the URL is rejected. -/
  NewRequest : String → Option ε
  /-- Models `client.Do(req)` for the GET of a URL; the first argument is the log
  of the earlier calls of `fetchRedmineIssues`. -/
  Do : List RedmineConfig → String → Except ε (Response ε)
  /-- Models `json.Unmarshal(body, &redmineResp)`. -/
  Unmarshal : String → Except ε RedmineResponse
  /-- The order in which `range` visits the entries of a map (Go leaves it
  unspecified); the first argument is the call log. -/
  Range : List RedmineConfig → UserIssues → List (String × List Issue)
  /-- Models the method `err.Error()`. -/
  Error : ε → String

/-- An environment whose `range` visits every entry of a map exactly once. -/
def Env.RangeOk {ε : Type} (env : Env ε) : Prop :=
  ∀ (calls : List RedmineConfig) (m : UserIssues), (env.Range calls m).Perm m

/-! ## `fetchRedmineIssues` (`main.go` lines 67-111) -/

/-- Go's conversion `string(i)` of an integer: the UTF-8 text of the code point
`i`, and the replacement character U+FFFD when `i` is not a valid code point. -/
def goString (i : Int) : String :=
  if 0 ≤ i ∧ Nat.isValidChar i.toNat then String.singleton (Char.ofNat i.toNat)
  else "\uFFFD"

/-- The request URL, lines 71-74. -/
def requestURL (config : RedmineConfig) : String :=
  config.URL ++ "issues.json" ++
    "?key=" ++ config.APIKey ++
    "&query_id=" ++ goString config.QueryID ++
    "&limit=" ++ goString config.Limit

/-- The `Issue` literal of lines 98-106. -/
def issueOf (config : RedmineConfig) (item : RedmineItem) : Issue :=
  { Ticket := item.ID
    Project := item.Project.Name
    Tracker := item.Tracker.Name
    Status := item.Status.Name
    Name := item.AssignedTo.Name
    Subject := item.Subject
    Link := config.URL }

/-- The loop of lines 97-108, started on the map `issues`. -/
def groupItems (config : RedmineConfig) (issues : UserIssues) (items : List RedmineItem) :
    UserIssues :=
  items.foldl
    (fun issues item =>
      issues.assign item.AssignedTo.Name
        (issues.index item.AssignedTo.Name ++ [issueOf config item]))
    issues

/-- Lines 68-95 of `fetchRedmineIssues`: build the URL, send the request, read
and decode the body.  The status code of the response is not looked at. -/
def fetchResponse {ε : Type} (env : Env ε) (calls : List RedmineConfig)
    (config : RedmineConfig) : Except ε RedmineResponse :=
  let url := requestURL config
  match env.NewRequest url with
  | some err => .error err
  | none =>
    match env.Do calls url with
    | .error err => .error err
    | .ok resp =>
      match resp.Body with
      | .error err => .error err
      | .ok body =>
        match env.Unmarshal body with
        | .error err => .error err
        | .ok redmineResp => .ok redmineResp

/-- The Go function `fetchRedmineIssues`: `(nil, err)` on any failure, otherwise the
issues of the response grouped by assignee name. -/
def fetchRedmineIssues {ε : Type} (env : Env ε) (calls : List RedmineConfig)
    (config : RedmineConfig) : Option UserIssues × Option ε :=
  match fetchResponse env calls config with
  | .error err => (none, some err)
  | .ok redmineResp => (some (groupItems config [] redmineResp.Issues), none)

/-! ## `combineRedmineIssues` (`main.go` lines 113-128) -/

/-- The inner loop, lines 122-124, over the entries in the order `range` gives. -/
def mergeIssues (combined : UserIssues) (entries : List (String × List Issue)) : UserIssues :=
  entries.foldl
    (fun combined entry => combined.assign entry.1 (combined.index entry.1 ++ entry.2))
    combined

/-- The outer loop, lines 116-125: `combined` is the map built so far and `calls`
the log of the calls of `fetchRedmineIssues` made so far.  Returns the Go result
pair and the log. -/
def combineLoop {ε : Type} (env : Env ε) :
    List RedmineConfig → UserIssues → List RedmineConfig →
      (Option UserIssues × Option ε) × List RedmineConfig
  | [], combined, calls => ((some combined, none), calls)
  | config :: rest, combined, calls =>
    match fetchRedmineIssues env calls config with
    | (_, some err) => ((none, some err), calls ++ [config])
    | (issues, none) =>
      combineLoop env rest
        (mergeIssues combined (env.Range calls (issues.getD [])))
        (calls ++ [config])

/-- The Go function `combineRedmineIssues`; `calls` is the call log on entry. -/
def combineRedmineIssues {ε : Type} (env : Env ε) (calls : List RedmineConfig)
    (configs : List RedmineConfig) : (Option UserIssues × Option ε) × List RedmineConfig :=
  combineLoop env configs [] calls

/-- The loop of `combineRedmineIssues` (lines 114-127) with the fetcher as a
parameter: `fetch` is any fetcher, acting on a world of any type `σ`, and the
loop passes the world each call leaves to the next call. -/
def combineWith {σ ε : Type}
    (fetch : RedmineConfig → σ → (Option UserIssues × Option ε) × σ)
    (range : σ → UserIssues → List (String × List Issue)) :
    List RedmineConfig → UserIssues → σ → (Option UserIssues × Option ε) × σ
  | [], combined, s => ((some combined, none), s)
  | config :: rest, combined, s =>
    match fetch config s with
    | ((_, some err), s') => ((none, some err), s')
    | ((issues, none), s') =>
      combineWith fetch range rest (mergeIssues combined (range s (issues.getD []))) s'

/-- The world after the fetcher has been called on each source of a list, once
each, from the first to the last. -/
def stateAfter {σ ε : Type} (fetch : RedmineConfig → σ → (Option UserIssues × Option ε) × σ)
    (configs : List RedmineConfig) (s : σ) : σ :=
  configs.foldl (fun s config => (fetch config s).2) s

/-- The fetcher `fetchRedmineIssues` acting on the call log: a call returns what
`fetchRedmineIssues` returns and leaves its source at the end of the log. -/
def loggedFetch {ε : Type} (env : Env ε) (config : RedmineConfig)
    (calls : List RedmineConfig) : (Option UserIssues × Option ε) × List RedmineConfig :=
  (fetchRedmineIssues env calls config, calls ++ [config])

/-- The outcome each source's fetch has when the sources are fetched one after
the other, in configured order, starting from the log `calls`. -/
def fetchAll {ε : Type} (env : Env ε) :
    List RedmineConfig → List RedmineConfig → List (Except ε RedmineResponse)
  | _, [] => []
  | calls, config :: rest =>
    fetchResponse env calls config :: fetchAll env (calls ++ [config]) rest

/-- The issues of a list of responses, source by source, in response order. -/
def issuesOf (configs : List RedmineConfig) (resps : List RedmineResponse) : List Issue :=
  (configs.zip resps).flatMap (fun p => p.2.Issues.map (issueOf p.1))

/-! ## The template (`main.go` lines 130-163) as `html/template` executes it

`html/template` escapes the output of every action for the context it stands in:
an action in element content goes through `htmlescaper`; an action in the value
of the quoted `href` attribute goes through `urlnormalizer` and `attrescaper`,
with `urlfilter` first when it starts the URL.  The text between the actions is
copied as it is.  `range` over a map visits the keys in sorted order. -/

/-- Go's `fmt.Sprint` of an `int`: its decimal representation. -/
def formatInt (i : Int) : String :=
  if i < 0 then "-" ++ Nat.repr i.natAbs else Nat.repr i.toNat

/-- The table `htmlReplacementTable` of `html/template`. -/
def htmlReplacement (c : Char) : List Char :=
  if c = Char.ofNat 0 then [Char.ofNat 0xFFFD]
  else if c = Char.ofNat 34 then "&#34;".data
  else if c = Char.ofNat 38 then "&amp;".data
  else if c = Char.ofNat 39 then "&#39;".data
  else if c = Char.ofNat 43 then "&#43;".data
  else if c = Char.ofNat 60 then "&lt;".data
  else if c = Char.ofNat 62 then "&gt;".data
  else [c]

/-- The escaper `htmlEscaper` of `html/template`, on plain text. -/
def htmlEscaper (s : String) : String := ⟨s.data.flatMap htmlReplacement⟩

/-- The escaper `attrEscaper` of `html/template`, on plain text: the same
replacement table as `htmlEscaper`. -/
def attrEscaper (s : String) : String := ⟨s.data.flatMap htmlReplacement⟩

/-- The UTF-8 encoding of a character, as byte values. -/
def utf8Bytes (c : Char) : List Nat :=
  let v := c.toNat
  if v < 0x80 then [v]
  else if v < 0x800 then [0xC0 + v / 64, 0x80 + v % 64]
  else if v < 0x10000 then [0xE0 + v / 4096, 0x80 + v / 64 % 64, 0x80 + v % 64]
  else [0xF0 + v / 262144, 0x80 + v / 4096 % 64, 0x80 + v / 64 % 64, 0x80 + v % 64]

/-- The bytes of a Go string. -/
def goBytes (s : String) : List Nat := s.data.flatMap utf8Bytes

/-- The test `isHex` of `html/template`, on a byte. -/
def isHex (c : Nat) : Bool :=
  (48 ≤ c && c ≤ 57) || (97 ≤ c && c ≤ 102) || (65 ≤ c && c ≤ 70)

/-- The bytes that `processURLOnto` copies whatever follows them when it
normalizes: the reserved `!#$&*+,/:;=?@[]`, the unreserved `-._~`, letters and
digits. -/
def urlByteKept (c : Nat) : Bool :=
  [33, 35, 36, 38, 42, 43, 44, 47, 58, 59, 61, 63, 64, 91, 93].contains c ||
  [45, 46, 95, 126].contains c ||
  (97 ≤ c && c ≤ 122) || (65 ≤ c && c ≤ 90) || (48 ≤ c && c ≤ 57)

/-- A hexadecimal digit, lower case. -/
def hexDigit (n : Nat) : Char :=
  if n < 10 then Char.ofNat (48 + n) else Char.ofNat (87 + n)

/-- The output of `fmt.Fprintf(b, "%%%02x", c)` for a byte `c`. -/
def percentEncode (c : Nat) : List Char :=
  [Char.ofNat 37, hexDigit (c / 16), hexDigit (c % 16)]

/-- The byte loop of `processURLOnto` with `norm` set: a `%` is copied when two
hexadecimal digits follow it, any other byte when `urlByteKept`, and every other
byte is percent-encoded. -/
def normalizeBytes : List Nat → List Char
  | [] => []
  | c :: rest =>
    (if c = 37 then
        match rest with
        | h1 :: h2 :: _ => if isHex h1 && isHex h2 then [Char.ofNat c] else percentEncode c
        | _ => percentEncode c
      else if urlByteKept c then [Char.ofNat c]
      else percentEncode c) ++ normalizeBytes rest

/-- The escaper `urlNormalizer` of `html/template`. -/
def urlNormalizer (s : String) : String := ⟨normalizeBytes (goBytes s)⟩

/-- Go's `strings.EqualFold` against a lower-case ASCII word: a letter matches
itself and its capital, and `s` also matches U+017F, which folds to it. -/
def equalFoldAscii : List Char → List Char → Bool
  | [], [] => true
  | c :: cs, w :: ws =>
    (c = w || c.toNat + 32 = w.toNat || (w = Char.ofNat 115 && c = Char.ofNat 0x17F))
      && equalFoldAscii cs ws
  | _, _ => false

/-- The part of the text before the first `:`, when there is one
(`strings.Cut(s, ":")`). -/
def cutColon : List Char → Option (List Char)
  | [] => none
  | c :: cs => if c = Char.ofNat 58 then some [] else (cutColon cs).map (c :: ·)

/-- The test `isSafeURL` of `html/template`: the URL is relative, or its protocol
is `http`, `https` or `mailto`. -/
def isSafeURL (s : String) : Bool :=
  match cutColon s.data with
  | some protocol =>
    if protocol.contains (Char.ofNat 47) then true
    else equalFoldAscii protocol "http".data || equalFoldAscii protocol "https".data
      || equalFoldAscii protocol "mailto".data
  | none => true

/-- The escaper `urlFilter` of `html/template`, on plain text. -/
def urlFilter (s : String) : String :=
  if isSafeURL s then s else "#ZgotmplZ"

/-- A piece of the rendered page: text of the template, or the escaped output of
an action. -/
inductive Piece where
  | text (s : String)
  | value (s : String)
deriving DecidableEq, Repr

/-- The characters a piece contributes to the page. -/
def Piece.str : Piece → String
  | .text s => s
  | .value s => s

/-- The characters a piece contributes to the page, as a list. -/
def Piece.chars (p : Piece) : List Char := p.str.data

/-- The text of the template before the outer `range`. -/
def templateHead : String :=
  "\n<!DOCTYPE html>\n<html>\n<head>\n    <title>今日の活動</title>\n" ++
  "    <link rel=\"icon\" href=\"data:,\">\n    <meta charset=\"utf-8\">\n</head>\n<body>\n" ++
  "    <table border=\"1\">\n    <tr>\n    <th>チケット</th>\n    <th>プロジェクト</th>\n" ++
  "    <th>トラッカー</th>\n    <th>ステータス</th>\n    <th>題名</th>\n    <th>担当者</th>\n" ++
  "    </tr>\n    "

/-- The text of the template after the outer `range`. -/
def templateTail : String := "\n    </table>\n</body>\n</html>\n"

/-- The texts of the template inside the two `range` blocks, in order. -/
def templateTexts : List String :=
  [ "\n        ",
    "\n        <tr>\n            <td><a href=\"",
    "issues/",
    "\">",
    "</a></td>\n            <td>",
    "</td>\n            <td>",
    "</td>\n        </tr>\n        ",
    "\n    " ]

/-- One pass of the inner `range` body (lines 150-157): the row of `issue` under
the key `name`. -/
def rowPieces (name : String) (issue : Issue) : List Piece :=
  [ .text "\n        <tr>\n            <td><a href=\"",
    .value (attrEscaper (urlNormalizer (urlFilter issue.Link))),
    .text "issues/",
    .value (attrEscaper (urlNormalizer (formatInt issue.Ticket))),
    .text "\">",
    .value (htmlEscaper (formatInt issue.Ticket)),
    .text "</a></td>\n            <td>",
    .value (htmlEscaper issue.Project),
    .text "</td>\n            <td>",
    .value (htmlEscaper issue.Tracker),
    .text "</td>\n            <td>",
    .value (htmlEscaper issue.Status),
    .text "</td>\n            <td>",
    .value (htmlEscaper issue.Subject),
    .text "</td>\n            <td>",
    .value (htmlEscaper name),
    .text "</td>\n        </tr>\n        " ]

/-- The order of Go strings (byte-wise, which on UTF-8 is the order of the code
points), as `a ≤ b`. -/
def keyLe : List Char → List Char → Bool
  | [], _ => true
  | _ :: _, [] => false
  | a :: as, b :: bs =>
    if a.toNat < b.toNat then true
    else if b.toNat < a.toNat then false
    else keyLe as bs

/-- Insertion of a key into a sorted list of keys. -/
def insertKey (k : String) : List String → List String
  | [] => [k]
  | k' :: ks => if keyLe k.data k'.data then k :: k' :: ks else k' :: insertKey k ks

/-- The keys of a map in sorted order, the order in which the template's `range`
visits them. -/
def sortedKeys (m : UserIssues) : List String := m.keys.foldr insertKey []

/-- One pass of the outer `range` body (lines 148-159) for the key `name`. -/
def groupPieces (m : UserIssues) (name : String) : List Piece :=
  [.text "\n        "] ++ (m.index name).flatMap (rowPieces name) ++ [.text "\n    "]

/-- The pieces of the page the template produces on the map `m`. -/
def renderPieces (m : UserIssues) : List Piece :=
  [.text templateHead] ++ (sortedKeys m).flatMap (groupPieces m) ++ [.text templateTail]

/-- The text of a list of pieces. -/
def piecesText (ps : List Piece) : String := String.join (ps.map Piece.str)

/-- The page: what `tmpl.Execute(w, m)` writes. -/
def render (m : UserIssues) : String := piecesText (renderPieces m)

/-- The text of the row of `issue` under the key `name`. -/
def rowText (name : String) (issue : Issue) : String := piecesText (rowPieces name issue)

/-- The issue rows of the page, in the order they appear in it. -/
def renderRows (m : UserIssues) : List String :=
  (sortedKeys m).flatMap (fun name => (m.index name).map (rowText name))

/-- An escaped value is safe in HTML text and in a quoted attribute: it has no
`<`, `>` or quote character, and every `&` in it starts one of the character
references the escapers write. -/
def safeText : List Char → Bool
  | [] => true
  | c :: cs =>
    (if c = Char.ofNat 38 then
        "amp;".data.isPrefixOf cs || "lt;".data.isPrefixOf cs || "gt;".data.isPrefixOf cs ||
        "#34;".data.isPrefixOf cs || "#39;".data.isPrefixOf cs || "#43;".data.isPrefixOf cs
      else c != Char.ofNat 60 && c != Char.ofNat 62 && c != Char.ofNat 34 && c != Char.ofNat 39)
    && safeText cs

/-- The markup characters of a text: its `<`, `>`, double and single quotes, in
the order they stand in it. -/
def markup (l : List Char) : List Char :=
  l.filter (fun c =>
    c == Char.ofNat 60 || c == Char.ofNat 62 || c == Char.ofNat 34 || c == Char.ofNat 39)

/-- The markup characters of a row whose values are all empty, which are those of
the template's texts for a row. -/
def rowMarkup : List Char := markup (rowText "" ⟨0, "", "", "", "", "", ""⟩).data

/-- Every `&` of the text starts one of the character references the escapers
write. -/
def ampsEscaped : List Char → Bool
  | [] => true
  | c :: cs =>
    (if c = Char.ofNat 38 then
        "amp;".data.isPrefixOf cs || "lt;".data.isPrefixOf cs || "gt;".data.isPrefixOf cs ||
        "#34;".data.isPrefixOf cs || "#39;".data.isPrefixOf cs || "#43;".data.isPrefixOf cs
      else true)
    && ampsEscaped cs

/-- The text `pat` stands somewhere in the text. -/
def hasInfix (pat : List Char) : List Char → Bool
  | [] => pat.isEmpty
  | c :: cs => pat.isPrefixOf (c :: cs) || hasInfix pat cs

/-! ## `handleRoot` (`main.go` lines 165-178) -/

/-- What a handler has done to its `http.ResponseWriter`: the headers set, the
status written (`none` until one is), and the body written. -/
structure ResponseWriter where
  Header : List (String × String)
  Status : Option Nat
  Body : String
deriving DecidableEq, Repr

/-- The writer a handler is given: nothing set, nothing written. -/
def ResponseWriter.fresh : ResponseWriter := ⟨[], none, ""⟩

/-- Go's `h.Get(key)` on the headers. -/
def headerGet : List (String × String) → String → Option String
  | [], _ => none
  | (k', v) :: h, k => if k' = k then some v else headerGet h k

/-- Go's `h.Del(key)` on the headers. -/
def headerDel (h : List (String × String)) (k : String) : List (String × String) :=
  h.filter (fun e => e.1 != k)

/-- Go's `h.Set(key, value)` on the headers. -/
def headerSet (h : List (String × String)) (k v : String) : List (String × String) :=
  (k, v) :: headerDel h k

/-- Go's `http.Error(w, error, code)`: plain-text headers, the status `code`, and
the message followed by a line feed as the body. -/
def httpError (w : ResponseWriter) (error : String) (code : Nat) : ResponseWriter :=
  { Header :=
      headerSet (headerSet (headerDel w.Header "Content-Length")
        "Content-Type" "text/plain; charset=utf-8") "X-Content-Type-Options" "nosniff"
    Status := some code
    Body := w.Body ++ error ++ "\n" }

/-- Go's `tmpl.Execute(w, data)` for the parsed `htmlTemplate`: the page is written
to the body; the first write sends the status 200 when none was written. -/
def execute (w : ResponseWriter) (data : UserIssues) : ResponseWriter :=
  { w with Status := some (w.Status.getD 200), Body := w.Body ++ render data }

/-- The handler that `handleRoot(tmpl, config)` returns, run on the writer `w`
with the call log `calls`. -/
def handleRoot {ε : Type} (env : Env ε) (config : Config) (w : ResponseWriter)
    (calls : List RedmineConfig) : ResponseWriter × List RedmineConfig :=
  match combineRedmineIssues env calls config.RedmineURLs with
  | ((_, some err), calls') =>
    (httpError w ("Failed to fetch Redmine issues: " ++ env.Error err) 500, calls')
  | ((issues, none), calls') =>
    (execute { w with Header := headerSet w.Header "Content-Type" "text/html; charset=utf-8" }
      (issues.getD []), calls')


/-! ## Sample sources

Two sources that answer, one that is down and one that answers 404.  Their query
ids and limits are code points of digits, so that the request URLs, in which
`string(int)` writes the character of the code point, are URLs `http.NewRequest`
accepts.  The bodies are JSON documents as Redmine sends them; `Unmarshal` gives
the value `encoding/json` decodes each of them to (the third record of the first
body has no `assigned_to`). -/

/-- The check of `http.NewRequest` that the sample environments model: a URL with
an ASCII control character in it is rejected. -/
def rejectURL (url : String) : Option String :=
  if url.data.any (fun c => decide (c.toNat < 32) || decide (c.toNat = 127)) then
    some "net/url: invalid control character in URL"
  else none

/-- The first sample source; its request URL ends in `&query_id=1&limit=9`. -/
def sourceA : RedmineConfig := ⟨"http://a.example/", "ka", 49, 57⟩

/-- The second sample source; its request URL ends in `&query_id=2&limit=8`. -/
def sourceB : RedmineConfig := ⟨"http://b.example/", "kb", 50, 56⟩

/-- A sample source whose host refuses the connection; its request URL ends in
`&query_id=3&limit=7`. -/
def sourceDown : RedmineConfig := ⟨"http://down.example/", "kd", 51, 55⟩

/-- The body the first source answers with. -/
def bodyA : String :=
  "\x7b\"issues\":[\x7b\"id\":101,\"project\":\x7b\"name\":\"Web\"\x7d,\"tracker\":\x7b\"name\":\"Bug\"\x7d," ++
  "\"status\":\x7b\"name\":\"New\"\x7d,\"assigned_to\":\x7b\"name\":\"Alice\"\x7d,\"subject\":\"<script>alert(1)</script>\"\x7d," ++
  "\x7b\"id\":102,\"project\":\x7b\"name\":\"Web\"\x7d,\"tracker\":\x7b\"name\":\"Feature\"\x7d,\"status\":" ++
  "\x7b\"name\":\"Open\"\x7d,\"assigned_to\":\x7b\"name\":\"Alice\"\x7d,\"subject\":\"Add search\"\x7d," ++
  "\x7b\"id\":103,\"project\":\x7b\"name\":\"Ops\"\x7d,\"tracker\":\x7b\"name\":\"Task\"\x7d,\"status\":" ++
  "\x7b\"name\":\"New\"\x7d,\"subject\":\"Rotate keys\"\x7d]\x7d"

/-- The body the second source answers with. -/
def bodyB : String :=
  "\x7b\"issues\":[\x7b\"id\":201,\"project\":\x7b\"name\":\"Api\"\x7d,\"tracker\":\x7b\"name\":\"Bug\"\x7d," ++
  "\"status\":\x7b\"name\":\"Open\"\x7d,\"assigned_to\":\x7b\"name\":\"Alice\"\x7d,\"subject\":\"Timeout on sync\"\x7d," ++
  "\x7b\"id\":202,\"project\":\x7b\"name\":\"Api\"\x7d,\"tracker\":\x7b\"name\":\"Task\"\x7d,\"status\":" ++
  "\x7b\"name\":\"New\"\x7d,\"assigned_to\":\x7b\"name\":\"Bob\"\x7d,\"subject\":\"Write docs\"\x7d]\x7d"

/-- The first record of `bodyA`. -/
def itemA1 : RedmineItem := ⟨101, ⟨"Web"⟩, ⟨"Bug"⟩, ⟨"New"⟩, ⟨"Alice"⟩, "<script>alert(1)</script>"⟩

/-- The second record of `bodyA`. -/
def itemA2 : RedmineItem := ⟨102, ⟨"Web"⟩, ⟨"Feature"⟩, ⟨"Open"⟩, ⟨"Alice"⟩, "Add search"⟩

/-- The third record of `bodyA`, which has no assignee. -/
def itemA3 : RedmineItem := ⟨103, ⟨"Ops"⟩, ⟨"Task"⟩, ⟨"New"⟩, Named.zero, "Rotate keys"⟩

/-- The first record of `bodyB`. -/
def itemB1 : RedmineItem := ⟨201, ⟨"Api"⟩, ⟨"Bug"⟩, ⟨"Open"⟩, ⟨"Alice"⟩, "Timeout on sync"⟩

/-- The second record of `bodyB`. -/
def itemB2 : RedmineItem := ⟨202, ⟨"Api"⟩, ⟨"Task"⟩, ⟨"New"⟩, ⟨"Bob"⟩, "Write docs"⟩

/-- The decoded `bodyA`. -/
def respA : RedmineResponse := ⟨[itemA1, itemA2, itemA3]⟩

/-- The decoded `bodyB`. -/
def respB : RedmineResponse := ⟨[itemB1, itemB2]⟩

/-- The sample environment: a URL with a control character is rejected, the two
sources answer 200 with their bodies, every other host refuses the connection,
and `range` visits a map from its last entry to its first.  Errors are their
messages. -/
def sampleEnv : Env String :=
  { NewRequest := rejectURL
    Do := fun _ url =>
      if url = requestURL sourceA then .ok ⟨200, .ok bodyA⟩
      else if url = requestURL sourceB then .ok ⟨200, .ok bodyB⟩
      else .error "connection refused"
    Unmarshal := fun body =>
      if body = bodyA then .ok respA
      else if body = bodyB then .ok respB
      else .error "invalid character"
    Range := fun _ m => m.reverse
    Error := fun e => e }

/-- A source that answers 404 Not Found; its request URL ends in
`&query_id=4&limit=6`. -/
def sourceMissing : RedmineConfig := ⟨"http://gone.example/", "kg", 52, 54⟩

/-- The body sent with the 404: a JSON document with an empty issue list. -/
def bodyEmpty : String := "\x7b\"issues\":[]\x7d"

/-- An environment whose remote answers every request with status 404 and the
body `bodyEmpty`, which `encoding/json` decodes to a response with no issue; a URL
with a control character is rejected. -/
def notFoundEnv : Env String :=
  { NewRequest := rejectURL
    Do := fun _ _ => .ok ⟨404, .ok bodyEmpty⟩
    Unmarshal := fun body =>
      if body = bodyEmpty then .ok ⟨[]⟩ else .error "invalid character"
    Range := fun _ m => m
    Error := fun e => e }

/-! # Properties -/

set_option maxRecDepth 100000

/-! ## The map operations -/

namespace UserIssues

theorem keys_cons (k : String) (v : List Issue) (m : UserIssues) :
    keys ((k, v) :: m) = k :: keys m := rfl

theorem index_assign (m : UserIssues) (k : String) (v : List Issue) (n : String) :
    index (assign m k v) n = if k = n then v else index m n := by
  induction m with
  | nil => simp [assign, index]
  | cons e m ih =>
    obtain ⟨k', v'⟩ := e
    by_cases h : k' = k
    · subst h
      by_cases hn : k' = n <;> simp [assign, index, hn]
    · by_cases hn : k' = n
      · subst hn
        have hk : ¬ k = k' := fun h' => h h'.symm
        simp [assign, index, h, hk]
      · simp [assign, index, h, hn, ih]

theorem mem_keys_assign (m : UserIssues) (k : String) (v : List Issue) (n : String) :
    n ∈ keys (assign m k v) ↔ n = k ∨ n ∈ keys m := by
  induction m with
  | nil => simp [assign, keys]
  | cons e m ih =>
    obtain ⟨k', v'⟩ := e
    by_cases h : k' = k
    · subst h
      simp [assign, keys]
    · simp only [assign, h, if_false, keys_cons, List.mem_cons, ih]
      tauto

theorem nodup_keys_assign (m : UserIssues) (k : String) (v : List Issue)
    (h : (keys m).Nodup) : (keys (assign m k v)).Nodup := by
  induction m with
  | nil => simp [assign, keys]
  | cons e m ih =>
    obtain ⟨k', v'⟩ := e
    rw [keys_cons, List.nodup_cons] at h
    by_cases hk : k' = k
    · subst hk
      simp only [assign, if_true, keys_cons, List.nodup_cons]
      exact h
    · simp only [assign, hk, if_false, keys_cons, List.nodup_cons]
      refine ⟨?_, ih h.2⟩
      rw [mem_keys_assign]
      rintro (h2 | h2)
      · exact hk h2
      · exact h.1 h2

theorem index_of_not_mem_keys (m : UserIssues) (n : String) (h : n ∉ keys m) :
    index m n = [] := by
  induction m with
  | nil => rfl
  | cons e m ih =>
    obtain ⟨k', v'⟩ := e
    rw [keys_cons, List.mem_cons, not_or] at h
    have hk : ¬ k' = n := fun h' => h.1 h'.symm
    simp [index, hk, ih h.2]

theorem allIssues_assign_append (m : UserIssues) (k : String) (v : List Issue) :
    (allIssues (assign m k (index m k ++ v))).Perm (allIssues m ++ v) := by
  induction m with
  | nil => simp [assign, index, allIssues]
  | cons e m ih =>
    obtain ⟨k', v'⟩ := e
    by_cases hk : k' = k
    · subst hk
      simp only [assign, index, allIssues, if_true, List.flatMap_cons, List.append_assoc]
      exact List.Perm.append_left _ List.perm_append_comm
    · simp only [allIssues] at ih
      simp only [assign, index, hk, allIssues, if_false, List.flatMap_cons, List.append_assoc]
      exact List.Perm.append_left _ ih

theorem index_perm {l₁ l₂ : UserIssues} (hp : l₁.Perm l₂) (hn : (keys l₁).Nodup) (n : String) :
    index l₁ n = index l₂ n := by
  induction hp with
  | nil => rfl
  | cons x _ ih =>
    obtain ⟨k, v⟩ := x
    rw [keys_cons, List.nodup_cons] at hn
    simp [index, ih hn.2]
  | swap x y l =>
    obtain ⟨k, v⟩ := x
    obtain ⟨k', v'⟩ := y
    rw [keys_cons, keys_cons, List.nodup_cons, List.mem_cons, not_or] at hn
    by_cases h1 : k = n
    · subst h1
      simp [index, hn.1.1]
    · simp [index, h1]
  | trans h₁ _ ih₁ ih₂ =>
    have hn2 : (keys _).Nodup := (h₁.map Prod.fst).nodup_iff.mp hn
    exact (ih₁ hn).trans (ih₂ hn2)

end UserIssues

/-! ## The two inner loops -/

theorem groupItems_cons (config : RedmineConfig) (m : UserIssues) (item : RedmineItem)
    (items : List RedmineItem) :
    groupItems config m (item :: items) =
      groupItems config
        (UserIssues.assign m item.AssignedTo.Name
          (UserIssues.index m item.AssignedTo.Name ++ [issueOf config item])) items := rfl

theorem index_groupItems (config : RedmineConfig) (items : List RedmineItem) (m : UserIssues)
    (n : String) :
    UserIssues.index (groupItems config m items) n =
      UserIssues.index m n ++ (items.map (issueOf config)).filter (fun i => i.Name = n) := by
  induction items generalizing m with
  | nil => simp [groupItems]
  | cons item items ih =>
    rw [groupItems_cons, ih, UserIssues.index_assign]
    by_cases h : item.AssignedTo.Name = n
    · subst h
      simp [issueOf]
    · simp [issueOf, h]

theorem mem_keys_groupItems (config : RedmineConfig) (items : List RedmineItem) (m : UserIssues)
    (n : String) :
    n ∈ UserIssues.keys (groupItems config m items) ↔
      n ∈ UserIssues.keys m ∨ ∃ item ∈ items, item.AssignedTo.Name = n := by
  induction items generalizing m with
  | nil => simp [groupItems]
  | cons item items ih =>
    rw [groupItems_cons, ih, UserIssues.mem_keys_assign]
    simp only [List.mem_cons, exists_eq_or_imp]
    constructor
    · rintro ((h | h) | h)
      · exact Or.inr (Or.inl h.symm)
      · exact Or.inl h
      · exact Or.inr (Or.inr h)
    · rintro (h | h | h)
      · exact Or.inl (Or.inr h)
      · exact Or.inl (Or.inl h.symm)
      · exact Or.inr h

theorem nodup_keys_groupItems (config : RedmineConfig) (items : List RedmineItem)
    (m : UserIssues) (h : (UserIssues.keys m).Nodup) :
    (UserIssues.keys (groupItems config m items)).Nodup := by
  induction items generalizing m with
  | nil => simpa [groupItems] using h
  | cons item items ih =>
    rw [groupItems_cons]
    exact ih _ (UserIssues.nodup_keys_assign m _ _ h)

theorem allIssues_groupItems (config : RedmineConfig) (items : List RedmineItem)
    (m : UserIssues) :
    (UserIssues.allIssues (groupItems config m items)).Perm
      (UserIssues.allIssues m ++ items.map (issueOf config)) := by
  induction items generalizing m with
  | nil => simp [groupItems]
  | cons item items ih =>
    rw [groupItems_cons]
    refine (ih _).trans ?_
    have h := UserIssues.allIssues_assign_append m item.AssignedTo.Name [issueOf config item]
    simpa [List.append_assoc] using h.append_right (items.map (issueOf config))

theorem mergeIssues_cons (combined : UserIssues) (entry : String × List Issue)
    (entries : List (String × List Issue)) :
    mergeIssues combined (entry :: entries) =
      mergeIssues
        (UserIssues.assign combined entry.1 (UserIssues.index combined entry.1 ++ entry.2))
        entries := rfl

theorem index_mergeIssues (entries : UserIssues) (combined : UserIssues)
    (h : (UserIssues.keys entries).Nodup) (n : String) :
    UserIssues.index (mergeIssues combined entries) n =
      UserIssues.index combined n ++ UserIssues.index entries n := by
  induction entries generalizing combined with
  | nil => simp [mergeIssues, UserIssues.index]
  | cons e entries ih =>
    obtain ⟨k, v⟩ := e
    rw [UserIssues.keys_cons, List.nodup_cons] at h
    rw [mergeIssues_cons, ih _ h.2, UserIssues.index_assign]
    by_cases hk : k = n
    · subst hk
      simp [UserIssues.index, UserIssues.index_of_not_mem_keys entries k h.1]
    · simp [UserIssues.index, hk]

theorem mem_keys_mergeIssues (entries : UserIssues) (combined : UserIssues) (n : String) :
    n ∈ UserIssues.keys (mergeIssues combined entries) ↔
      n ∈ UserIssues.keys combined ∨ n ∈ UserIssues.keys entries := by
  induction entries generalizing combined with
  | nil => simp [mergeIssues, UserIssues.keys]
  | cons e entries ih =>
    obtain ⟨k, v⟩ := e
    rw [mergeIssues_cons, ih, UserIssues.mem_keys_assign, UserIssues.keys_cons, List.mem_cons]
    tauto

theorem nodup_keys_mergeIssues (entries : UserIssues) (combined : UserIssues)
    (h : (UserIssues.keys combined).Nodup) :
    (UserIssues.keys (mergeIssues combined entries)).Nodup := by
  induction entries generalizing combined with
  | nil => simpa [mergeIssues] using h
  | cons e entries ih =>
    rw [mergeIssues_cons]
    exact ih _ (UserIssues.nodup_keys_assign combined _ _ h)

theorem allIssues_mergeIssues (entries : UserIssues) (combined : UserIssues) :
    (UserIssues.allIssues (mergeIssues combined entries)).Perm
      (UserIssues.allIssues combined ++ UserIssues.allIssues entries) := by
  induction entries generalizing combined with
  | nil => simp [mergeIssues, UserIssues.allIssues]
  | cons e entries ih =>
    obtain ⟨k, v⟩ := e
    rw [mergeIssues_cons]
    refine (ih _).trans ?_
    have h := UserIssues.allIssues_assign_append combined k v
    simpa [UserIssues.allIssues, List.append_assoc] using
      h.append_right (UserIssues.allIssues entries)


/-! ## The outer loop -/

theorem fetchRedmineIssues_ok {ε : Type} (env : Env ε) (calls : List RedmineConfig)
    (config : RedmineConfig) (r : RedmineResponse)
    (h : fetchResponse env calls config = .ok r) :
    fetchRedmineIssues env calls config = (some (groupItems config [] r.Issues), none) := by
  simp [fetchRedmineIssues, h]

theorem fetchRedmineIssues_error {ε : Type} (env : Env ε) (calls : List RedmineConfig)
    (config : RedmineConfig) (e : ε) (h : fetchResponse env calls config = .error e) :
    fetchRedmineIssues env calls config = (none, some e) := by
  simp [fetchRedmineIssues, h]

theorem combineLoop_cons_ok {ε : Type} (env : Env ε) (calls : List RedmineConfig)
    (config : RedmineConfig) (rest : List RedmineConfig) (combined : UserIssues)
    (r : RedmineResponse) (h : fetchResponse env calls config = .ok r) :
    combineLoop env (config :: rest) combined calls =
      combineLoop env rest
        (mergeIssues combined (env.Range calls (groupItems config [] r.Issues)))
        (calls ++ [config]) := by
  simp [combineLoop, fetchRedmineIssues_ok env calls config r h]

theorem combineLoop_cons_error {ε : Type} (env : Env ε) (calls : List RedmineConfig)
    (config : RedmineConfig) (rest : List RedmineConfig) (combined : UserIssues)
    (e : ε) (h : fetchResponse env calls config = .error e) :
    combineLoop env (config :: rest) combined calls = ((none, some e), calls ++ [config]) := by
  simp [combineLoop, fetchRedmineIssues_error env calls config e h]

theorem issuesOf_cons (c : RedmineConfig) (cs : List RedmineConfig) (r : RedmineResponse)
    (rs : List RedmineResponse) :
    issuesOf (c :: cs) (r :: rs) = r.Issues.map (issueOf c) ++ issuesOf cs rs := by
  simp [issuesOf]

/-- A list of fetch outcomes with a failure in it splits at its first failure. -/
theorem split_first_error {ε α : Type} (l : List (Except ε α))
    (h : ∃ e, Except.error e ∈ l) :
    ∃ (oks : List α) (e : ε) (rest : List (Except ε α)),
      l = oks.map Except.ok ++ Except.error e :: rest := by
  induction l with
  | nil => simp at h
  | cons x l ih =>
    cases x with
    | error e => exact ⟨[], e, l, rfl⟩
    | ok a =>
      obtain ⟨e, he⟩ := h
      have he' : Except.error e ∈ l := by simpa using he
      obtain ⟨oks, e', rest, hl⟩ := ih ⟨e, he'⟩
      exact ⟨a :: oks, e', rest, by simp [hl]⟩

/-- The loop stops at the first failing fetch: it returns that error with a nil
map, and the log ends with the failing source. -/
theorem combineLoop_first_error {ε : Type} (env : Env ε) (oks : List RedmineResponse) (e : ε)
    (rest : List (Except ε RedmineResponse)) :
    ∀ (configs : List RedmineConfig) (combined : UserIssues) (calls : List RedmineConfig),
      fetchAll env calls configs = oks.map Except.ok ++ Except.error e :: rest →
      combineLoop env configs combined calls =
        ((none, some e), calls ++ configs.take (oks.length + 1)) := by
  induction oks with
  | nil =>
    intro configs combined calls h
    cases configs with
    | nil => simp [fetchAll] at h
    | cons c cs =>
      simp only [fetchAll, List.map_nil, List.nil_append, List.cons.injEq] at h
      rw [combineLoop_cons_error env calls c cs combined e h.1]
      simp
  | cons r oks ih =>
    intro configs combined calls h
    cases configs with
    | nil => simp [fetchAll] at h
    | cons c cs =>
      simp only [fetchAll, List.map_cons, List.cons_append, List.cons.injEq] at h
      rw [combineLoop_cons_ok env calls c cs combined r h.1, ih cs _ _ h.2]
      simp

/-- When every fetch succeeds the loop calls the fetcher on every source and
returns a map. -/
theorem combineLoop_all_ok_calls {ε : Type} (env : Env ε) :
    ∀ (configs : List RedmineConfig) (resps : List RedmineResponse) (combined : UserIssues)
      (calls : List RedmineConfig),
      fetchAll env calls configs = resps.map Except.ok →
      ∃ m, combineLoop env configs combined calls = ((some m, none), calls ++ configs) := by
  intro configs
  induction configs with
  | nil =>
    intro resps combined calls _
    exact ⟨combined, by simp [combineLoop]⟩
  | cons c cs ih =>
    intro resps combined calls h
    cases resps with
    | nil => simp [fetchAll] at h
    | cons r rs =>
      simp only [fetchAll, List.map_cons, List.cons.injEq] at h
      obtain ⟨m, hm⟩ := ih rs (mergeIssues combined (env.Range calls (groupItems c [] r.Issues)))
        (calls ++ [c]) h.2
      exact ⟨m, by rw [combineLoop_cons_ok env calls c cs combined r h.1, hm]; simp⟩

/-- The invariant of the outer loop when every fetch succeeds. -/
theorem combineLoop_all_ok {ε : Type} (env : Env ε) (hR : env.RangeOk) :
    ∀ (configs : List RedmineConfig) (resps : List RedmineResponse) (combined : UserIssues)
      (calls : List RedmineConfig),
      fetchAll env calls configs = resps.map Except.ok →
      (UserIssues.keys combined).Nodup →
      ∃ m, combineLoop env configs combined calls = ((some m, none), calls ++ configs) ∧
        (UserIssues.keys m).Nodup ∧
        (∀ n, UserIssues.index m n =
          UserIssues.index combined n ++ (issuesOf configs resps).filter (fun i => i.Name = n)) ∧
        (∀ n, n ∈ UserIssues.keys m ↔
          n ∈ UserIssues.keys combined ∨ ∃ i ∈ issuesOf configs resps, i.Name = n) ∧
        (UserIssues.allIssues m).Perm (UserIssues.allIssues combined ++ issuesOf configs resps) := by
  intro configs
  induction configs with
  | nil =>
    intro resps combined calls h hn
    have hr : resps = [] := by simpa [fetchAll] using h.symm
    subst hr
    exact ⟨combined, by simp [combineLoop], hn, by simp [issuesOf], by simp [issuesOf],
      by simp [issuesOf]⟩
  | cons c cs ih =>
    intro resps combined calls h hn
    cases resps with
    | nil => simp [fetchAll] at h
    | cons r rs =>
      simp only [fetchAll, List.map_cons, List.cons.injEq] at h
      have hperm : (env.Range calls (groupItems c [] r.Issues)).Perm (groupItems c [] r.Issues) :=
        hR calls _
      have hg : (UserIssues.keys (groupItems c [] r.Issues)).Nodup :=
        nodup_keys_groupItems c r.Issues [] (by simp [UserIssues.keys])
      have he : (UserIssues.keys (env.Range calls (groupItems c [] r.Issues))).Nodup :=
        (hperm.map Prod.fst).nodup_iff.mpr hg
      obtain ⟨m, hm, hmn, hmi, hmk, hma⟩ :=
        ih rs (mergeIssues combined (env.Range calls (groupItems c [] r.Issues)))
          (calls ++ [c]) h.2 (nodup_keys_mergeIssues _ combined hn)
      refine ⟨m, by rw [combineLoop_cons_ok env calls c cs combined r h.1, hm]; simp, hmn,
        ?_, ?_, ?_⟩
      · intro n
        rw [hmi n, index_mergeIssues _ combined he n, UserIssues.index_perm hperm he n,
          index_groupItems, issuesOf_cons, List.filter_append]
        simp [UserIssues.index]
      · intro n
        rw [hmk n, mem_keys_mergeIssues, issuesOf_cons]
        have hk : n ∈ UserIssues.keys (env.Range calls (groupItems c [] r.Issues)) ↔
            n ∈ UserIssues.keys (groupItems c [] r.Issues) := (hperm.map Prod.fst).mem_iff
        rw [hk, mem_keys_groupItems]
        simp only [UserIssues.keys, List.map_nil, List.not_mem_nil, false_or, List.mem_append,
          List.mem_map]
        constructor
        · rintro ((h1 | ⟨item, hi, hin⟩) | ⟨i, hi, hin⟩)
          · exact Or.inl h1
          · exact Or.inr ⟨issueOf c item, Or.inl ⟨item, hi, rfl⟩, hin⟩
          · exact Or.inr ⟨i, Or.inr hi, hin⟩
        · rintro (h1 | ⟨i, (⟨item, hi, rfl⟩ | hi), hin⟩)
          · exact Or.inl (Or.inl h1)
          · exact Or.inl (Or.inr ⟨item, hi, hin⟩)
          · exact Or.inr ⟨i, hi, hin⟩
      · refine hma.trans ?_
        rw [issuesOf_cons, ← List.append_assoc]
        refine List.Perm.append_right _ ?_
        refine (allIssues_mergeIssues _ combined).trans (List.Perm.append_left _ ?_)
        refine (hperm.flatMap_right Prod.snd).trans ?_
        simpa [UserIssues.allIssues] using allIssues_groupItems c r.Issues []


/-! ## Fetch outcomes -/

theorem fetch_err_iff {ε : Type} (env : Env ε) (calls : List RedmineConfig)
    (config : RedmineConfig) (e : ε) :
    (fetchRedmineIssues env calls config).2 = some e ↔
      fetchResponse env calls config = .error e := by
  unfold fetchRedmineIssues
  cases fetchResponse env calls config <;> simp

theorem fetch_ok_iff {ε : Type} (env : Env ε) (calls : List RedmineConfig)
    (config : RedmineConfig) :
    (fetchRedmineIssues env calls config).2 = none ↔
      ∃ r, fetchResponse env calls config = .ok r := by
  unfold fetchRedmineIssues
  cases fetchResponse env calls config <;> simp

/-- The entry `j` of `fetchAll` is the fetch of source `j` after the sources before
it have been fetched. -/
theorem getElem?_fetchAll {ε : Type} (env : Env ε) :
    ∀ (configs calls : List RedmineConfig) (j : Nat),
      (fetchAll env calls configs)[j]? =
        (configs[j]?).map (fun c => fetchResponse env (calls ++ configs.take j) c) := by
  intro configs
  induction configs with
  | nil => intro calls j; simp [fetchAll]
  | cons c cs ih =>
    intro calls j
    cases j with
    | zero => simp [fetchAll]
    | succ j => simp [fetchAll, ih]

theorem length_fetchAll {ε : Type} (env : Env ε) :
    ∀ (configs calls : List RedmineConfig), (fetchAll env calls configs).length = configs.length := by
  intro configs
  induction configs with
  | nil => intro calls; simp [fetchAll]
  | cons c cs ih => intro calls; simp [fetchAll, ih]

/-- A list of outcomes that are all successes is the list of its responses. -/
theorem all_ok_eq_map {ε α : Type} (l : List (Except ε α))
    (h : ∀ x ∈ l, ∃ a, x = Except.ok a) : ∃ as : List α, l = as.map Except.ok := by
  induction l with
  | nil => exact ⟨[], rfl⟩
  | cons x l ih =>
    obtain ⟨a, ha⟩ := h x (List.mem_cons_self _ _)
    obtain ⟨as, has⟩ := ih (fun y hy => h y (List.mem_cons_of_mem _ hy))
    exact ⟨a :: as, by simp [ha, has]⟩

theorem length_issuesOf :
    ∀ (configs : List RedmineConfig) (resps : List RedmineResponse),
      configs.length = resps.length →
      (issuesOf configs resps).length = (resps.map (fun r => r.Issues.length)).sum := by
  intro configs
  induction configs with
  | nil => intro resps h; cases resps <;> simp_all [issuesOf]
  | cons c cs ih =>
    intro resps h
    cases resps with
    | nil => simp at h
    | cons r rs =>
      rw [issuesOf_cons]
      simp [ih rs (by simpa using h)]

theorem filter_issuesOf (p : Issue → Bool) :
    ∀ (configs : List RedmineConfig) (resps : List RedmineResponse),
      (issuesOf configs resps).filter p =
        (configs.zip resps).flatMap (fun s => (s.2.Issues.map (issueOf s.1)).filter p) := by
  intro configs
  induction configs with
  | nil => intro resps; simp [issuesOf]
  | cons c cs ih =>
    intro resps
    cases resps with
    | nil => simp [issuesOf]
    | cons r rs =>
      rw [issuesOf_cons, List.filter_append, ih rs]
      simp

theorem index_of_mem {m : UserIssues} (hn : (UserIssues.keys m).Nodup) {k : String}
    {v : List Issue} (h : (k, v) ∈ m) : UserIssues.index m k = v := by
  induction m with
  | nil => simp at h
  | cons e m ih =>
    obtain ⟨k', v'⟩ := e
    rw [UserIssues.keys_cons, List.nodup_cons] at hn
    rcases List.mem_cons.mp h with h1 | h1
    · cases h1
      simp [UserIssues.index]
    · have hk : k ∈ UserIssues.keys m := List.mem_map.mpr ⟨(k, v), h1, rfl⟩
      have hne : ¬ k' = k := fun h' => hn.1 (h' ▸ hk)
      simp [UserIssues.index, hne, ih hn.2 h1]


/-! ## The escapers -/

theorem safeText_entity (rest : List Char) :
    safeText ("&#34;".data ++ rest) = safeText rest ∧
    safeText ("&amp;".data ++ rest) = safeText rest ∧
    safeText ("&#39;".data ++ rest) = safeText rest ∧
    safeText ("&#43;".data ++ rest) = safeText rest ∧
    safeText ("&lt;".data ++ rest) = safeText rest ∧
    safeText ("&gt;".data ++ rest) = safeText rest ∧
    safeText ([Char.ofNat 0xFFFD] ++ rest) = safeText rest := by
  refine ⟨?_, ?_, ?_, ?_, ?_, ?_, rfl⟩ <;> simp [safeText, List.isPrefixOf]

theorem safeText_htmlReplacement (c : Char) (rest : List Char) :
    safeText (htmlReplacement c ++ rest) = safeText rest := by
  unfold htmlReplacement
  split_ifs with h0 h1 h2 h3 h4 h5 h6
  · exact (safeText_entity rest).2.2.2.2.2.2
  · exact (safeText_entity rest).1
  · exact (safeText_entity rest).2.1
  · exact (safeText_entity rest).2.2.1
  · exact (safeText_entity rest).2.2.2.1
  · exact (safeText_entity rest).2.2.2.2.1
  · exact (safeText_entity rest).2.2.2.2.2.1
  · simp [safeText, h1, h2, h3, h5, h6]

theorem safeText_flatMap_htmlReplacement (l : List Char) :
    safeText (l.flatMap htmlReplacement) = true := by
  induction l with
  | nil => rfl
  | cons c l ih => rw [List.flatMap_cons, safeText_htmlReplacement, ih]

/-- Whatever the text, `htmlEscaper` writes no `<`, `>` or quote, and no `&` other
than the start of a character reference. -/
theorem safeText_htmlEscaper (s : String) : safeText (htmlEscaper s).data = true :=
  safeText_flatMap_htmlReplacement s.data

/-- Whatever the text, `attrEscaper` writes no `<`, `>` or quote, and no `&` other
than the start of a character reference. -/
theorem safeText_attrEscaper (s : String) : safeText (attrEscaper s).data = true :=
  safeText_flatMap_htmlReplacement s.data

theorem mem_insertKey (k n : String) (ks : List String) :
    n ∈ insertKey k ks ↔ n = k ∨ n ∈ ks := by
  induction ks with
  | nil => simp [insertKey]
  | cons k' ks ih =>
    unfold insertKey
    split_ifs
    · simp
    · simp only [List.mem_cons, ih]
      tauto

theorem mem_sortedKeys (m : UserIssues) (n : String) :
    n ∈ sortedKeys m ↔ n ∈ UserIssues.keys m := by
  unfold sortedKeys
  induction UserIssues.keys m with
  | nil => simp
  | cons k ks ih => simp [mem_insertKey, ih]

/-- The loop returns either a map and no error, or a nil map and an error. -/
theorem combineLoop_shape {ε : Type} (env : Env ε) :
    ∀ (configs : List RedmineConfig) (combined : UserIssues) (calls : List RedmineConfig),
      (∃ m, (combineLoop env configs combined calls).1 = (some m, none)) ∨
      (∃ e, (combineLoop env configs combined calls).1 = (none, some e)) := by
  intro configs
  induction configs with
  | nil => intro combined calls; exact Or.inl ⟨combined, rfl⟩
  | cons c cs ih =>
    intro combined calls
    cases hf : fetchResponse env calls c with
    | error e =>
      rw [combineLoop_cons_error env calls c cs combined e hf]
      exact Or.inr ⟨e, rfl⟩
    | ok r =>
      rw [combineLoop_cons_ok env calls c cs combined r hf]
      exact ih _ _

/-- The two keys `Alice` and the empty name are visited in the order: empty name,
`Alice`. -/
theorem sorted_two_keys (ks : List String) (hn : ks.Nodup)
    (hk : ∀ k, k ∈ ks ↔ k = "Alice" ∨ k = "") :
    ks.foldr insertKey [] = ["", "Alice"] := by
  have hp : ks.Perm ["Alice", ""] :=
    (List.perm_ext_iff_of_nodup hn (by decide)).mpr (by intro a; rw [hk a]; simp)
  have hl := hp.length_eq
  match ks, hl with
  | [a, b], _ =>
    have ha := (hk a).mp (by simp)
    have hb := (hk b).mp (by simp)
    have hab : a ≠ b := by
      intro h
      subst h
      simp at hn
    rcases ha with rfl | rfl <;> rcases hb with rfl | rfl
    · exact absurd rfl hab
    · decide
    · decide
    · exact absurd rfl hab


/-! ## The loop over any fetcher -/

theorem stateAfter_cons {σ ε : Type}
    (fetch : RedmineConfig → σ → (Option UserIssues × Option ε) × σ)
    (c : RedmineConfig) (cs : List RedmineConfig) (s : σ) :
    stateAfter fetch (c :: cs) s = stateAfter fetch cs (fetch c s).2 := rfl

/-- The log after the logging fetcher has run over a list of sources. -/
theorem stateAfter_loggedFetch {ε : Type} (env : Env ε) :
    ∀ (configs calls : List RedmineConfig),
      stateAfter (loggedFetch env) configs calls = calls ++ configs := by
  intro configs
  induction configs with
  | nil => intro calls; simp [stateAfter]
  | cons c cs ih =>
    intro calls
    rw [stateAfter_cons, show (loggedFetch env c calls).2 = calls ++ [c] from rfl, ih]
    simp

/-- The loop of the model is the loop over the logging fetcher. -/
theorem combineLoop_eq_combineWith {ε : Type} (env : Env ε) :
    ∀ (configs : List RedmineConfig) (combined : UserIssues) (calls : List RedmineConfig),
      combineLoop env configs combined calls =
        combineWith (loggedFetch env) env.Range configs combined calls := by
  intro configs
  induction configs with
  | nil => intro combined calls; rfl
  | cons c cs ih =>
    intro combined calls
    rcases hf : fetchRedmineIssues env calls c with ⟨issues, err⟩
    cases err with
    | some e => simp [combineLoop, combineWith, loggedFetch, hf]
    | none => simp [combineLoop, combineWith, loggedFetch, hf, ih]

/-- Over any fetcher, when every call succeeds the loop returns a map and leaves
the world the calls on the sources, one each in configured order, lead to. -/
theorem combineWith_all_ok {σ ε : Type}
    (fetch : RedmineConfig → σ → (Option UserIssues × Option ε) × σ)
    (range : σ → UserIssues → List (String × List Issue)) :
    ∀ (configs : List RedmineConfig) (combined : UserIssues) (s : σ),
      (∀ j c, configs[j]? = some c →
        (fetch c (stateAfter fetch (configs.take j) s)).1.2 = none) →
      ∃ m, combineWith fetch range configs combined s =
        ((some m, none), stateAfter fetch configs s) := by
  intro configs
  induction configs with
  | nil => intro combined s _; exact ⟨combined, rfl⟩
  | cons c cs ih =>
    intro combined s h
    have h0 : (fetch c s).1.2 = none := by simpa [stateAfter] using h 0 c (by simp)
    rcases hf : fetch c s with ⟨⟨issues, err⟩, s'⟩
    rw [hf] at h0
    simp only at h0
    subst h0
    have hrest : ∀ j c', cs[j]? = some c' →
        (fetch c' (stateAfter fetch (cs.take j) s')).1.2 = none := by
      intro j c' hj
      have := h (j + 1) c' (by simpa using hj)
      simpa [stateAfter_cons, hf] using this
    obtain ⟨m, hm⟩ := ih (mergeIssues combined (range s (issues.getD []))) s' hrest
    exact ⟨m, by simp only [combineWith, hf, hm, stateAfter_cons]⟩


/-! ## The characters of the page -/

theorem data_piecesText (ps : List Piece) :
    (piecesText ps).data = ps.flatMap Piece.chars := by
  unfold piecesText
  rw [String.data_join, List.map_map, List.flatMap_def]
  rfl

theorem markup_append (a b : List Char) : markup (a ++ b) = markup a ++ markup b := by
  simp [markup]

theorem markup_flatMap {α : Type} (l : List α) (f : α → List Char) :
    markup (l.flatMap f) = l.flatMap (fun x => markup (f x)) := by
  induction l with
  | nil => rfl
  | cons x l ih => simp [List.flatMap_cons, markup_append, ih]

theorem markup_of_safeText : ∀ l : List Char, safeText l = true → markup l = [] := by
  intro l
  induction l with
  | nil => intro _; rfl
  | cons c cs ih =>
    intro h
    simp only [safeText, Bool.and_eq_true] at h
    have hcs := ih h.2
    have hc := h.1
    by_cases h38 : c = Char.ofNat 38
    · subst h38
      simp only [markup] at hcs ⊢
      rw [List.filter_cons_of_neg (by decide)]
      exact hcs
    · simp only [h38, if_false, Bool.and_eq_true, bne_iff_ne, ne_eq] at hc
      simp only [markup] at hcs ⊢
      rw [List.filter_cons_of_neg (by simp [hc.1.1.1, hc.1.1.2, hc.1.2, hc.2])]
      exact hcs

theorem markup_htmlEscaper (s : String) : markup (htmlEscaper s).data = [] :=
  markup_of_safeText _ (safeText_htmlEscaper s)

theorem markup_attrEscaper (s : String) : markup (attrEscaper s).data = [] :=
  markup_of_safeText _ (safeText_attrEscaper s)

theorem markup_rowPieces (name : String) (issue : Issue) :
    markup ((rowPieces name issue).flatMap Piece.chars) = rowMarkup := by
  unfold rowMarkup rowText
  rw [data_piecesText]
  simp only [rowPieces, List.flatMap_cons, List.flatMap_nil, Piece.chars, Piece.str,
    markup_append, markup_htmlEscaper, markup_attrEscaper, List.append_nil, List.nil_append]

theorem markup_groupPieces (m : UserIssues) (name : String) :
    markup ((groupPieces m name).flatMap Piece.chars) =
      (UserIssues.index m name).flatMap (fun _ => rowMarkup) := by
  have h3 : markup ([Piece.text "\n        "].flatMap Piece.chars) = [] := by decide
  have h4 : markup ([Piece.text "\n    "].flatMap Piece.chars) = [] := by decide
  unfold groupPieces
  rw [List.flatMap_append, List.flatMap_append, markup_append, markup_append, h3, h4,
    List.flatMap_assoc, markup_flatMap (UserIssues.index m name)]
  simp only [markup_rowPieces, List.nil_append, List.append_nil]

theorem markup_render (m : UserIssues) :
    markup (render m).data =
      markup templateHead.data ++
        (sortedKeys m).flatMap
          (fun name => (UserIssues.index m name).flatMap (fun _ => rowMarkup)) ++
        markup templateTail.data := by
  have h3 : [Piece.text templateHead].flatMap Piece.chars = templateHead.data := by
    simp [Piece.chars, Piece.str]
  have h4 : [Piece.text templateTail].flatMap Piece.chars = templateTail.data := by
    simp [Piece.chars, Piece.str]
  unfold render
  rw [data_piecesText]
  unfold renderPieces
  rw [List.flatMap_append, List.flatMap_append, markup_append, markup_append, h3, h4,
    List.flatMap_assoc, markup_flatMap (sortedKeys m)]
  simp only [markup_groupPieces]

theorem isPrefixOf_append (p cs b : List Char) (h : p.isPrefixOf cs = true) :
    p.isPrefixOf (cs ++ b) = true := by
  rw [List.isPrefixOf_iff_prefix] at h ⊢
  exact h.trans (List.prefix_append cs b)

theorem ampsEscaped_append : ∀ a b : List Char,
    ampsEscaped a = true → ampsEscaped b = true → ampsEscaped (a ++ b) = true := by
  intro a
  induction a with
  | nil => intro b _ hb; exact hb
  | cons c cs ih =>
    intro b ha hb
    simp only [ampsEscaped, Bool.and_eq_true] at ha
    simp only [List.cons_append, ampsEscaped, Bool.and_eq_true]
    refine ⟨?_, ih b ha.2 hb⟩
    have hc := ha.1
    by_cases h38 : c = Char.ofNat 38
    · simp only [h38, if_true, Bool.or_eq_true] at hc ⊢
      rcases hc with ((((hc | hc) | hc) | hc) | hc) | hc
      · exact Or.inl (Or.inl (Or.inl (Or.inl (Or.inl (isPrefixOf_append _ _ _ hc)))))
      · exact Or.inl (Or.inl (Or.inl (Or.inl (Or.inr (isPrefixOf_append _ _ _ hc)))))
      · exact Or.inl (Or.inl (Or.inl (Or.inr (isPrefixOf_append _ _ _ hc))))
      · exact Or.inl (Or.inl (Or.inr (isPrefixOf_append _ _ _ hc)))
      · exact Or.inl (Or.inr (isPrefixOf_append _ _ _ hc))
      · exact Or.inr (isPrefixOf_append _ _ _ hc)
    · simp [h38]

theorem ampsEscaped_flatMap {α : Type} (l : List α) (f : α → List Char)
    (h : ∀ x ∈ l, ampsEscaped (f x) = true) : ampsEscaped (l.flatMap f) = true := by
  induction l with
  | nil => rfl
  | cons x l ih =>
    rw [List.flatMap_cons]
    exact ampsEscaped_append _ _ (h x (List.mem_cons_self _ _))
      (ih (fun y hy => h y (List.mem_cons_of_mem _ hy)))

theorem ampsEscaped_of_safeText : ∀ l : List Char, safeText l = true → ampsEscaped l = true := by
  intro l
  induction l with
  | nil => intro _; rfl
  | cons c cs ih =>
    intro h
    simp only [safeText, Bool.and_eq_true] at h
    simp only [ampsEscaped, Bool.and_eq_true]
    refine ⟨?_, ih h.2⟩
    by_cases h38 : c = Char.ofNat 38
    · simpa [h38] using h.1
    · simp [h38]

theorem mem_renderPieces (m : UserIssues) (p : Piece) (hp : p ∈ renderPieces m) :
    (∃ s, p = .text s ∧ s ∈ templateHead :: templateTail :: templateTexts) ∨
    (∃ s, p = .value s ∧ safeText s.data = true) := by
  simp only [renderPieces, groupPieces, List.mem_append, List.mem_flatMap, List.mem_singleton]
    at hp
  rcases hp with (hp | ⟨name, _, (hp | ⟨issue, _, hp⟩) | hp⟩) | hp
  · exact Or.inl ⟨_, hp, by simp⟩
  · exact Or.inl ⟨_, hp, by simp [templateTexts]⟩
  · simp only [rowPieces, List.mem_cons, List.mem_singleton, List.not_mem_nil, or_false] at hp
    rcases hp with hp | hp | hp | hp | hp | hp | hp | hp | hp | hp | hp | hp | hp | hp | hp |
      hp | hp
    all_goals first
      | exact Or.inl ⟨_, hp, by simp [templateTexts]⟩
      | exact Or.inr ⟨_, hp, safeText_flatMap_htmlReplacement _⟩
  · exact Or.inl ⟨_, hp, by simp [templateTexts]⟩
  · exact Or.inl ⟨_, hp, by simp⟩

theorem ampsEscaped_render (m : UserIssues) : ampsEscaped (render m).data = true := by
  unfold render
  rw [data_piecesText]
  refine ampsEscaped_flatMap _ _ ?_
  intro p hp
  rcases mem_renderPieces m p hp with ⟨s, rfl, hs⟩ | ⟨s, rfl, hs⟩
  · simp only [templateTexts, List.mem_cons, List.mem_singleton, List.not_mem_nil, or_false]
      at hs
    rcases hs with rfl | rfl | rfl | rfl | rfl | rfl | rfl | rfl | rfl | rfl <;> decide
  · exact ampsEscaped_of_safeText _ hs

theorem flatMap_infix {α β : Type} (f : α → List β) {l₁ l₂ : List α} (h : l₁ <:+: l₂) :
    l₁.flatMap f <:+: l₂.flatMap f := by
  obtain ⟨s, t, rfl⟩ := h
  exact ⟨s.flatMap f, t.flatMap f, by simp [List.flatMap_append]⟩

theorem infix_flatMap_of_mem {α β : Type} (f : α → List β) {l : List α} {x : α}
    (h : x ∈ l) : f x <:+: l.flatMap f := by
  rw [List.flatMap_def]
  exact List.infix_of_mem_flatten (List.mem_map_of_mem f h)

theorem rowPieces_infix_renderPieces (m : UserIssues) (name : String) (issue : Issue)
    (hname : name ∈ UserIssues.keys m) (hissue : issue ∈ UserIssues.index m name) :
    rowPieces name issue <:+: renderPieces m := by
  have h1 : rowPieces name issue <:+: groupPieces m name := by
    unfold groupPieces
    exact (infix_flatMap_of_mem (rowPieces name) hissue).trans
      ((List.infix_append _ _ _))
  have h2 : groupPieces m name <:+: renderPieces m := by
    unfold renderPieces
    exact (infix_flatMap_of_mem (groupPieces m) ((mem_sortedKeys m name).mpr hname)).trans
      ((List.infix_append _ _ _))
  exact h1.trans h2

theorem rowText_infix_render (m : UserIssues) (name : String) (issue : Issue)
    (hname : name ∈ UserIssues.keys m) (hissue : issue ∈ UserIssues.index m name) :
    (rowText name issue).data <:+: (render m).data := by
  unfold rowText render
  rw [data_piecesText, data_piecesText]
  exact flatMap_infix _ (rowPieces_infix_renderPieces m name issue hname hissue)

theorem rowText_eq (name : String) (issue : Issue) :
    rowText name issue =
      "\n        <tr>\n            <td><a href=\"" ++
      attrEscaper (urlNormalizer (urlFilter issue.Link)) ++ "issues/" ++
      attrEscaper (urlNormalizer (formatInt issue.Ticket)) ++ "\">" ++
      htmlEscaper (formatInt issue.Ticket) ++ "</a></td>\n            <td>" ++
      htmlEscaper issue.Project ++ "</td>\n            <td>" ++
      htmlEscaper issue.Tracker ++ "</td>\n            <td>" ++
      htmlEscaper issue.Status ++ "</td>\n            <td>" ++
      htmlEscaper issue.Subject ++ "</td>\n            <td>" ++
      htmlEscaper name ++ "</td>\n        </tr>\n        " := by
  apply String.ext
  rw [show (rowText name issue).data = (rowPieces name issue).flatMap Piece.chars from
    data_piecesText _]
  simp [rowPieces, Piece.chars, Piece.str, String.data_append]


/-! # The claims -/

/-- C1: when the fetch of some source fails, `combineRedmineIssues` returns an error,
which is the error of the first source that fails in configured order (every
source before it succeeds); the map it returns is nil; and the calls made are
those on the sources up to the failing one, so no later source is fetched. -/
theorem combineRedmineIssues_fail_fast {ε : Type} (env : Env ε)
    (calls configs : List RedmineConfig)
    (h : ∃ j c e, configs[j]? = some c ∧
      (fetchRedmineIssues env (calls ++ configs.take j) c).2 = some e) :
    ∃ k c e, configs[k]? = some c ∧
      fetchRedmineIssues env (calls ++ configs.take k) c = (none, some e) ∧
      (∀ j c', j < k → configs[j]? = some c' →
        (fetchRedmineIssues env (calls ++ configs.take j) c').2 = none) ∧
      combineRedmineIssues env calls configs =
        ((none, some e), calls ++ configs.take (k + 1)) := by
  obtain ⟨j, c, e, hc, he⟩ := h
  have hmem : ∃ e, Except.error e ∈ fetchAll env calls configs := by
    refine ⟨e, List.mem_iff_getElem?.mpr ⟨j, ?_⟩⟩
    rw [getElem?_fetchAll, hc]
    simp [(fetch_err_iff env _ c e).mp he]
  obtain ⟨oks, e', rest, hsplit⟩ := split_first_error _ hmem
  have hk : (fetchAll env calls configs)[oks.length]? = some (Except.error e') := by
    rw [hsplit, List.getElem?_append_right (by simp)]
    simp
  rw [getElem?_fetchAll] at hk
  obtain ⟨c', hc', hf'⟩ := Option.map_eq_some'.mp hk
  refine ⟨oks.length, c', e', hc', fetchRedmineIssues_error env _ c' e' hf', ?_, ?_⟩
  · intro i ci hi hci
    have hi' : (fetchAll env calls configs)[i]? = some (Except.ok (oks.get ⟨i, hi⟩)) := by
      rw [hsplit, List.getElem?_append_left (by simpa using hi)]
      simp
    rw [getElem?_fetchAll, hci] at hi'
    exact (fetch_ok_iff env _ ci).mpr ⟨_, by simpa using hi'⟩
  · exact combineLoop_first_error env oks e' rest configs [] calls hsplit

/-- C1 at the sources A, down, B: the second fetch fails, its error is returned
with a nil map, and B is not fetched. -/
theorem combineRedmineIssues_fail_fast_witness :
    (∃ j c e, [sourceA, sourceDown, sourceB][j]? = some c ∧
      (fetchRedmineIssues sampleEnv ([] ++ [sourceA, sourceDown, sourceB].take j) c).2 = some e) ∧
    (∃ k c e, [sourceA, sourceDown, sourceB][k]? = some c ∧
      fetchRedmineIssues sampleEnv ([] ++ [sourceA, sourceDown, sourceB].take k) c
        = (none, some e) ∧
      (∀ j c', j < k → [sourceA, sourceDown, sourceB][j]? = some c' →
        (fetchRedmineIssues sampleEnv ([] ++ [sourceA, sourceDown, sourceB].take j) c').2
          = none) ∧
      combineRedmineIssues sampleEnv [] [sourceA, sourceDown, sourceB] =
        ((none, some e), [] ++ [sourceA, sourceDown, sourceB].take (k + 1))) ∧
    combineRedmineIssues sampleEnv [] [sourceA, sourceDown, sourceB] =
      ((none, some "connection refused"), [sourceA, sourceDown]) :=
  ⟨⟨1, sourceDown, "connection refused", rfl, by decide⟩,
    combineRedmineIssues_fail_fast sampleEnv [] [sourceA, sourceDown, sourceB]
      ⟨1, sourceDown, "connection refused", rfl, by decide⟩,
    by decide⟩

/-- C10: when the fetch of every source succeeds, `combineRedmineIssues` returns a
map and no error, and the calls made to the fetcher are exactly the configured
sources, one call each, in configured order.  The calls are counted by the
fetcher, not by the loop: `combineRedmineIssues` is the loop `combineWith` run
with `fetchRedmineIssues` as a fetcher that logs its own calls; and over every
fetcher, on a world of any type that only the fetcher can change, the loop
leaves the world that calling the fetcher on each source once, from the first to
the last, leads to. -/
theorem combineRedmineIssues_calls_each_source {ε : Type} (env : Env ε)
    (calls configs : List RedmineConfig)
    (h : ∀ j c, configs[j]? = some c →
      (fetchRedmineIssues env (calls ++ configs.take j) c).2 = none) :
    (∃ m, combineRedmineIssues env calls configs = ((some m, none), calls ++ configs)) ∧
    combineRedmineIssues env calls configs =
      combineWith (loggedFetch env) env.Range configs [] calls ∧
    stateAfter (loggedFetch env) configs calls = calls ++ configs ∧
    (∀ (σ : Type) (fetch : RedmineConfig → σ → (Option UserIssues × Option ε) × σ)
      (range : σ → UserIssues → List (String × List Issue)) (s : σ),
      (∀ j c, configs[j]? = some c →
        (fetch c (stateAfter fetch (configs.take j) s)).1.2 = none) →
      ∃ m, combineWith fetch range configs [] s =
        ((some m, none), configs.foldl (fun s config => (fetch config s).2) s)) := by
  have hid := combineLoop_eq_combineWith env configs [] calls
  have hlog : ∀ j c, configs[j]? = some c →
      (loggedFetch env c (stateAfter (loggedFetch env) (configs.take j) calls)).1.2 = none := by
    intro j c hc
    rw [stateAfter_loggedFetch]
    exact h j c hc
  obtain ⟨m, hm⟩ := combineWith_all_ok (loggedFetch env) env.Range configs [] calls hlog
  refine ⟨⟨m, ?_⟩, hid, stateAfter_loggedFetch env configs calls, ?_⟩
  · unfold combineRedmineIssues
    rw [hid, hm, stateAfter_loggedFetch]
  · intro σ fetch range s hs
    exact combineWith_all_ok fetch range configs [] s hs

/-- C10 at the sources A, B: both fetches succeed and the calls logged are A, then B. -/
theorem combineRedmineIssues_calls_each_source_witness :
    (∀ j c, [sourceA, sourceB][j]? = some c →
      (fetchRedmineIssues sampleEnv ([] ++ [sourceA, sourceB].take j) c).2 = none) ∧
    (∃ m, combineRedmineIssues sampleEnv [] [sourceA, sourceB] =
      ((some m, none), [] ++ [sourceA, sourceB])) ∧
    (combineWith (loggedFetch sampleEnv) sampleEnv.Range [sourceA, sourceB] [] []).2 =
      [sourceA, sourceB] :=
  have hyp : ∀ j c, [sourceA, sourceB][j]? = some c →
      (fetchRedmineIssues sampleEnv ([] ++ [sourceA, sourceB].take j) c).2 = none := by
    intro j c hc
    match j, hc with
    | 0, hc => cases hc; decide
    | 1, hc => cases hc; decide
    | j + 2, hc => simp at hc
  ⟨hyp, (combineRedmineIssues_calls_each_source sampleEnv [] [sourceA, sourceB] hyp).1,
    by decide⟩

/-- C2: when the sources, fetched in configured order, answer with the responses
`resps`, the sequence stored under a name `n` is the concatenation, source by
source in configured order, of the issues of the source's response whose assignee
is `n`, in response order, whatever the order in which `range` visits the
per-source maps; and `n` is a key exactly when some response has an issue
assigned to `n`. -/
theorem combineRedmineIssues_groups_in_fetch_order {ε : Type} (env : Env ε)
    (hR : env.RangeOk) (calls configs : List RedmineConfig) (resps : List RedmineResponse)
    (h : fetchAll env calls configs = resps.map Except.ok) :
    ∃ m, (combineRedmineIssues env calls configs).1 = (some m, none) ∧
      (∀ n, UserIssues.index m n =
        (configs.zip resps).flatMap
          (fun s => (s.2.Issues.map (issueOf s.1)).filter (fun i => i.Name = n))) ∧
      (∀ n, n ∈ UserIssues.keys m ↔
        ∃ s ∈ configs.zip resps, ∃ item ∈ s.2.Issues, item.AssignedTo.Name = n) ∧
      (UserIssues.keys m).Nodup := by
  obtain ⟨m, hm, hn, hi, hk, _⟩ :=
    combineLoop_all_ok env hR configs resps [] calls h (by simp [UserIssues.keys])
  refine ⟨m, by simp [combineRedmineIssues, hm], ?_, ?_, hn⟩
  · intro n
    rw [hi n, filter_issuesOf]
    simp [UserIssues.index]
  · intro n
    rw [hk n]
    simp only [UserIssues.keys, List.map_nil, List.not_mem_nil, false_or, issuesOf,
      List.mem_flatMap, List.mem_map]
    constructor
    · rintro ⟨i, ⟨s, hs, item, hitem, rfl⟩, hin⟩
      exact ⟨s, hs, item, hitem, hin⟩
    · rintro ⟨s, hs, item, hitem, hin⟩
      exact ⟨issueOf s.1 item, ⟨s, hs, item, hitem, rfl⟩, hin⟩

/-- C2 at the sources A, B, with `range` visiting maps backwards: Alice has the
two issues of A and then the one of B. -/
theorem combineRedmineIssues_groups_in_fetch_order_witness :
    fetchAll sampleEnv [] [sourceA, sourceB] = [respA, respB].map Except.ok ∧
    (∃ m, (combineRedmineIssues sampleEnv [] [sourceA, sourceB]).1 = (some m, none) ∧
      (∀ n, UserIssues.index m n =
        ([sourceA, sourceB].zip [respA, respB]).flatMap
          (fun s => (s.2.Issues.map (issueOf s.1)).filter (fun i => i.Name = n))) ∧
      (∀ n, n ∈ UserIssues.keys m ↔
        ∃ s ∈ [sourceA, sourceB].zip [respA, respB], ∃ item ∈ s.2.Issues,
          item.AssignedTo.Name = n) ∧
      (UserIssues.keys m).Nodup) ∧
    UserIssues.index ((combineRedmineIssues sampleEnv [] [sourceA, sourceB]).1.1.getD []) "Alice" =
      [issueOf sourceA itemA1, issueOf sourceA itemA2, issueOf sourceB itemB1] :=
  ⟨rfl,
    combineRedmineIssues_groups_in_fetch_order sampleEnv (fun _ m => List.reverse_perm m) []
      [sourceA, sourceB] [respA, respB] rfl,
    by decide⟩

/-- C3: when the sources, fetched in configured order, answer with the responses
`resps`, the issues the returned map holds, over all its keys, are as a multiset
the issues decoded from the records of all the responses: every record gives
one issue, none is dropped, merged or added, and their number is the sum of the
lengths of the responses. -/
theorem combineRedmineIssues_keeps_every_issue {ε : Type} (env : Env ε)
    (hR : env.RangeOk) (calls configs : List RedmineConfig) (resps : List RedmineResponse)
    (h : fetchAll env calls configs = resps.map Except.ok) :
    ∃ m, (combineRedmineIssues env calls configs).1 = (some m, none) ∧
      (↑(UserIssues.allIssues m) : Multiset Issue) = ↑(issuesOf configs resps) ∧
      (UserIssues.allIssues m).length = (resps.map (fun r => r.Issues.length)).sum := by
  obtain ⟨m, hm, _, _, _, hp⟩ :=
    combineLoop_all_ok env hR configs resps [] calls h (by simp [UserIssues.keys])
  have hp' : (UserIssues.allIssues m).Perm (issuesOf configs resps) := by
    simpa [UserIssues.allIssues] using hp
  have hlen : configs.length = resps.length := by
    have := congrArg List.length h
    simpa [length_fetchAll] using this
  exact ⟨m, by simp [combineRedmineIssues, hm], Quotient.sound hp',
    by rw [hp'.length_eq, length_issuesOf configs resps hlen]⟩

/-- C3 at the sources A, B: the map holds the five issues of the two responses. -/
theorem combineRedmineIssues_keeps_every_issue_witness :
    fetchAll sampleEnv [] [sourceA, sourceB] = [respA, respB].map Except.ok ∧
    ∃ m, (combineRedmineIssues sampleEnv [] [sourceA, sourceB]).1 = (some m, none) ∧
      (↑(UserIssues.allIssues m) : Multiset Issue) =
        ↑(issuesOf [sourceA, sourceB] [respA, respB]) ∧
      (UserIssues.allIssues m).length =
        ([respA, respB].map (fun r => r.Issues.length)).sum :=
  ⟨rfl,
    combineRedmineIssues_keeps_every_issue sampleEnv (fun _ m => List.reverse_perm m) []
      [sourceA, sourceB] [respA, respB] rfl⟩

/-- C4: when the response of a source decodes to `resp`, `fetchRedmineIssues`
returns a map that holds one issue for each record of `resp`; the issue of a
record has the record's id, project name, tracker name, status name, assignee
name and subject and the source's URL as link; a nested object missing from the
record, which the decoder leaves at its zero value, gives the empty string; and
every issue is stored under the key equal to its own `Name`, the lists of the
keys being in response order. -/
theorem fetchRedmineIssues_decodes_records {ε : Type} (env : Env ε)
    (calls : List RedmineConfig) (config : RedmineConfig) (resp : RedmineResponse)
    (h : fetchResponse env calls config = .ok resp) :
    ∃ m, fetchRedmineIssues env calls config = (some m, none) ∧
      (↑(UserIssues.allIssues m) : Multiset Issue) = ↑(resp.Issues.map (issueOf config)) ∧
      (∀ item : RedmineItem, issueOf config item =
        { Ticket := item.ID, Project := item.Project.Name, Tracker := item.Tracker.Name,
          Status := item.Status.Name, Name := item.AssignedTo.Name, Subject := item.Subject,
          Link := config.URL }) ∧
      (∀ item : RedmineItem,
        (item.Project = Named.zero → (issueOf config item).Project = "") ∧
        (item.Tracker = Named.zero → (issueOf config item).Tracker = "") ∧
        (item.Status = Named.zero → (issueOf config item).Status = "") ∧
        (item.AssignedTo = Named.zero → (issueOf config item).Name = "")) ∧
      (∀ k v, (k, v) ∈ m → ∀ i ∈ v, i.Name = k) ∧
      (∀ n, UserIssues.index m n =
        (resp.Issues.map (issueOf config)).filter (fun i => i.Name = n)) := by
  have hn : (UserIssues.keys (groupItems config [] resp.Issues)).Nodup :=
    nodup_keys_groupItems config resp.Issues [] (by simp [UserIssues.keys])
  have hi : ∀ n, UserIssues.index (groupItems config [] resp.Issues) n =
      (resp.Issues.map (issueOf config)).filter (fun i => i.Name = n) := by
    intro n
    rw [index_groupItems]
    simp [UserIssues.index]
  refine ⟨groupItems config [] resp.Issues, fetchRedmineIssues_ok env calls config resp h,
    Quotient.sound ?_, fun _ => rfl, ?_, ?_, hi⟩
  · simpa [UserIssues.allIssues] using allIssues_groupItems config resp.Issues []
  · intro item
    refine ⟨?_, ?_, ?_, ?_⟩ <;> intro hz <;> simp [issueOf, hz, Named.zero]
  · intro k v hkv i hiv
    rw [← index_of_mem hn hkv, hi k] at hiv
    simpa using (List.mem_filter.mp hiv).2

/-- C4 at the source A, whose third record has no assignee. -/
theorem fetchRedmineIssues_decodes_records_witness :
    fetchResponse sampleEnv [] sourceA = .ok respA ∧
    ∃ m, fetchRedmineIssues sampleEnv [] sourceA = (some m, none) ∧
      (↑(UserIssues.allIssues m) : Multiset Issue) = ↑(respA.Issues.map (issueOf sourceA)) ∧
      (∀ item : RedmineItem, issueOf sourceA item =
        { Ticket := item.ID, Project := item.Project.Name, Tracker := item.Tracker.Name,
          Status := item.Status.Name, Name := item.AssignedTo.Name, Subject := item.Subject,
          Link := sourceA.URL }) ∧
      (∀ item : RedmineItem,
        (item.Project = Named.zero → (issueOf sourceA item).Project = "") ∧
        (item.Tracker = Named.zero → (issueOf sourceA item).Tracker = "") ∧
        (item.Status = Named.zero → (issueOf sourceA item).Status = "") ∧
        (item.AssignedTo = Named.zero → (issueOf sourceA item).Name = "")) ∧
      (∀ k v, (k, v) ∈ m → ∀ i ∈ v, i.Name = k) ∧
      (∀ n, UserIssues.index m n =
        (respA.Issues.map (issueOf sourceA)).filter (fun i => i.Name = n)) :=
  ⟨rfl, fetchRedmineIssues_decodes_records sampleEnv [] sourceA respA rfl⟩


/-- C5: on the source with query id 12 and limit 100 the request URL does not end
in `&query_id=12&limit=100`: Go's `string(12)` is the form feed character and
`string(100)` is the letter `d`, so the integers are written as the characters of
those code points and not as decimal numbers. -/
theorem requestURL_writes_code_points :
    requestURL ⟨"http://redmine.example/", "secret", 12, 100⟩ =
      "http://redmine.example/issues.json?key=secret&query_id=\x0c&limit=d" ∧
    requestURL ⟨"http://redmine.example/", "secret", 12, 100⟩ ≠
      "http://redmine.example/issues.json?key=secret&query_id=12&limit=100" := by
  decide

/-- C6, as the claim states it, fails.  The source has query id 52 and limit 54,
so its request URL ends in `&query_id=4&limit=6` and `http.NewRequest` accepts
it; the remote answers 404 with a body that decodes; `fetchRedmineIssues` returns
a map and no error, and the service answers 200. -/
theorem fetchRedmineIssues_accepts_not_found :
    requestURL sourceMissing = "http://gone.example/issues.json?key=kg&query_id=4&limit=6" ∧
    notFoundEnv.NewRequest (requestURL sourceMissing) = none ∧
    (∃ resp, notFoundEnv.Do [] (requestURL sourceMissing) = .ok resp ∧ resp.StatusCode = 404) ∧
    fetchRedmineIssues notFoundEnv [] sourceMissing = (some [], none) ∧
    (handleRoot notFoundEnv ⟨[sourceMissing]⟩ ResponseWriter.fresh []).1.Status = some 200 :=
  ⟨by decide, by decide, ⟨_, rfl, rfl⟩, by decide, by decide⟩

/-- C6, amended: `fetchRedmineIssues` does not look at the status of the response.
Once the request is sent and answered, whatever the status, the fetch fails
exactly when reading the body or decoding it fails, and otherwise returns the
issues decoded from the body; a service with that single source answers 500 in
the first case and 200 in the second. -/
theorem fetchRedmineIssues_ignores_status {ε : Type} (env : Env ε)
    (calls : List RedmineConfig) (config : RedmineConfig) (resp : Response ε)
    (hreq : env.NewRequest (requestURL config) = none)
    (hdo : env.Do calls (requestURL config) = .ok resp) :
    fetchRedmineIssues env calls config =
      (match resp.Body with
        | .error err => (none, some err)
        | .ok body =>
          match env.Unmarshal body with
          | .error err => (none, some err)
          | .ok r => (some (groupItems config [] r.Issues), none)) ∧
    (handleRoot env ⟨[config]⟩ ResponseWriter.fresh calls).1.Status =
      (match resp.Body with
        | .error _ => some 500
        | .ok body =>
          match env.Unmarshal body with
          | .error _ => some 500
          | .ok _ => some 200) := by
  cases hb : resp.Body with
  | error e =>
    simp [handleRoot, combineRedmineIssues, combineLoop, fetchRedmineIssues, fetchResponse,
      hreq, hdo, hb, httpError]
  | ok body =>
    cases hu : env.Unmarshal body with
    | error e =>
      simp [handleRoot, combineRedmineIssues, combineLoop, fetchRedmineIssues, fetchResponse,
        hreq, hdo, hb, hu, httpError]
    | ok r =>
      simp [handleRoot, combineRedmineIssues, combineLoop, fetchRedmineIssues, fetchResponse,
        hreq, hdo, hb, hu, execute, ResponseWriter.fresh]

/-- C6, amended, at a remote that answers 404 with a body that decodes, for a
source whose request URL, ending in `&query_id=4&limit=6`, is accepted. -/
theorem fetchRedmineIssues_ignores_status_witness :
    requestURL sourceMissing = "http://gone.example/issues.json?key=kg&query_id=4&limit=6" ∧
    notFoundEnv.NewRequest (requestURL sourceMissing) = none ∧
    notFoundEnv.Do [] (requestURL sourceMissing) = .ok ⟨404, .ok bodyEmpty⟩ ∧
    fetchRedmineIssues notFoundEnv [] sourceMissing =
      (match (⟨404, .ok bodyEmpty⟩ : Response String).Body with
        | .error err => (none, some err)
        | .ok body =>
          match notFoundEnv.Unmarshal body with
          | .error err => (none, some err)
          | .ok r => (some (groupItems sourceMissing [] r.Issues), none)) ∧
    (handleRoot notFoundEnv ⟨[sourceMissing]⟩ ResponseWriter.fresh []).1.Status =
      (match (⟨404, .ok bodyEmpty⟩ : Response String).Body with
        | .error _ => some 500
        | .ok body =>
          match notFoundEnv.Unmarshal body with
          | .error _ => some 500
          | .ok _ => some 200) :=
  ⟨by decide, by decide, rfl, fetchRedmineIssues_ignores_status notFoundEnv [] sourceMissing
    ⟨404, .ok bodyEmpty⟩ (by decide) rfl⟩

/-- C8: in the page rendered on any map, the markup characters `<`, `>`, `"` and
the single quote are exactly those of the template's texts, the same sequence
for every row whatever the values of its issue, and every `&` starts a character
reference, so no such character of a subject, a project, tracker or status
name, an assignee name or a link is written unescaped; every issue the map holds
is shown, its row being the template's row text around its values passed
through `htmlEscaper`, and through the URL escapers for the link; the escapers
write no markup character for any text; and the subject
`<script>alert(1)</script>` of the first issue of the source A is in the page as
`&lt;script&gt;alert(1)&lt;/script&gt;`, the page having no `<script` in it. -/
theorem render_escapes_values (m : UserIssues) :
    markup (render m).data =
      markup templateHead.data ++
        (sortedKeys m).flatMap
          (fun name => (UserIssues.index m name).flatMap (fun _ => rowMarkup)) ++
        markup templateTail.data ∧
    rowMarkup = "<><><\"\"><><><><><><><><><><><><><>".data ∧
    ampsEscaped (render m).data = true ∧
    (∀ name ∈ UserIssues.keys m, ∀ issue ∈ UserIssues.index m name,
      (rowText name issue).data <:+: (render m).data) ∧
    (∀ (name : String) (issue : Issue), rowText name issue =
      "\n        <tr>\n            <td><a href=\"" ++
      attrEscaper (urlNormalizer (urlFilter issue.Link)) ++ "issues/" ++
      attrEscaper (urlNormalizer (formatInt issue.Ticket)) ++ "\">" ++
      htmlEscaper (formatInt issue.Ticket) ++ "</a></td>\n            <td>" ++
      htmlEscaper issue.Project ++ "</td>\n            <td>" ++
      htmlEscaper issue.Tracker ++ "</td>\n            <td>" ++
      htmlEscaper issue.Status ++ "</td>\n            <td>" ++
      htmlEscaper issue.Subject ++ "</td>\n            <td>" ++
      htmlEscaper name ++ "</td>\n        </tr>\n        ") ∧
    (∀ s : String,
      markup (htmlEscaper s).data = [] ∧ ampsEscaped (htmlEscaper s).data = true ∧
      markup (attrEscaper s).data = [] ∧ ampsEscaped (attrEscaper s).data = true) ∧
    htmlEscaper "<script>alert(1)</script>" = "&lt;script&gt;alert(1)&lt;/script&gt;" ∧
    hasInfix "&lt;script&gt;alert(1)&lt;/script&gt;".data
      (render ((combineRedmineIssues sampleEnv [] [sourceA]).1.1.getD [])).data = true ∧
    hasInfix "<script".data
      (render ((combineRedmineIssues sampleEnv [] [sourceA]).1.1.getD [])).data = false :=
  ⟨markup_render m, by decide, ampsEscaped_render m,
    fun name hname issue hissue => rowText_infix_render m name issue hname hissue,
    rowText_eq,
    fun s => ⟨markup_htmlEscaper s, ampsEscaped_of_safeText _ (safeText_htmlEscaper s),
      markup_attrEscaper s, ampsEscaped_of_safeText _ (safeText_attrEscaper s)⟩,
    by decide, by decide, by decide⟩

/-- C9: when `combineRedmineIssues` returns the error `e`, the handler answers with
status 500 and the content type `text/plain; charset=utf-8`, and the body is the
line `Failed to fetch Redmine issues: ` followed by the message of `e` (ended by
the line feed `http.Error` writes after a message), so nothing of the template is
written; when it returns no error, it returns a map, the handler sets the content
type `text/html; charset=utf-8`, and the body is the template rendered on that
map, sent with status 200. -/
theorem handleRoot_response {ε : Type} (env : Env ε) (config : Config)
    (calls : List RedmineConfig) :
    (∀ e, (combineRedmineIssues env calls config.RedmineURLs).1.2 = some e →
      (handleRoot env config ResponseWriter.fresh calls).1.Status = some 500 ∧
      (handleRoot env config ResponseWriter.fresh calls).1.Body =
        "Failed to fetch Redmine issues: " ++ env.Error e ++ "\n" ∧
      headerGet (handleRoot env config ResponseWriter.fresh calls).1.Header "Content-Type" =
        some "text/plain; charset=utf-8") ∧
    ((combineRedmineIssues env calls config.RedmineURLs).1.2 = none →
      ∃ m, (combineRedmineIssues env calls config.RedmineURLs).1.1 = some m ∧
        (handleRoot env config ResponseWriter.fresh calls).1.Status = some 200 ∧
        (handleRoot env config ResponseWriter.fresh calls).1.Body = render m ∧
        headerGet (handleRoot env config ResponseWriter.fresh calls).1.Header "Content-Type" =
          some "text/html; charset=utf-8") := by
  have hshape := combineLoop_shape env config.RedmineURLs [] calls
  unfold handleRoot
  unfold combineRedmineIssues
  rcases hshape with ⟨m, hm⟩ | ⟨e, he⟩
  · constructor
    · intro e h
      rw [hm] at h
      simp at h
    · intro _
      refine ⟨m, by rw [hm], ?_⟩
      generalize combineLoop env config.RedmineURLs [] calls = res at hm
      obtain ⟨⟨a, b⟩, c⟩ := res
      cases hm
      simp [execute, ResponseWriter.fresh, headerSet, headerDel, headerGet]
  · constructor
    · intro e' h
      rw [he] at h
      cases h
      generalize combineLoop env config.RedmineURLs [] calls = res at he
      obtain ⟨⟨a, b⟩, c⟩ := res
      cases he
      simp [httpError, ResponseWriter.fresh, headerSet, headerDel, headerGet]
    · intro h
      rw [he] at h
      simp at h


/-- C7, as the claim states it, fails.  The source A has query id 49 and limit 57,
so its request URL ends in `&query_id=1&limit=9` and `http.NewRequest` accepts
it; it answers with two issues of Alice followed by an issue without assignee;
and the rows of the page are not in the order issue 1, issue 2, issue 3: the row
of issue 3 comes first. -/
theorem rows_not_in_response_order :
    requestURL sourceA = "http://a.example/issues.json?key=ka&query_id=1&limit=9" ∧
    sampleEnv.NewRequest (requestURL sourceA) = none ∧
    fetchResponse sampleEnv [] sourceA = .ok ⟨[itemA1, itemA2, itemA3]⟩ ∧
    itemA1.AssignedTo.Name = "Alice" ∧ itemA2.AssignedTo.Name = "Alice" ∧
    itemA3.AssignedTo.Name = "" ∧
    (handleRoot sampleEnv ⟨[sourceA]⟩ ResponseWriter.fresh []).1.Status = some 200 ∧
    (handleRoot sampleEnv ⟨[sourceA]⟩ ResponseWriter.fresh []).1.Body =
      render ((combineRedmineIssues sampleEnv [] [sourceA]).1.1.getD []) ∧
    renderRows ((combineRedmineIssues sampleEnv [] [sourceA]).1.1.getD []) ≠
      [rowText "Alice" (issueOf sourceA itemA1), rowText "Alice" (issueOf sourceA itemA2),
        rowText "" (issueOf sourceA itemA3)] ∧
    renderRows ((combineRedmineIssues sampleEnv [] [sourceA]).1.1.getD []) =
      [rowText "" (issueOf sourceA itemA3), rowText "Alice" (issueOf sourceA itemA1),
        rowText "Alice" (issueOf sourceA itemA2)] :=
  ⟨by decide, by decide, rfl, rfl, rfl, rfl, by decide, by decide, by decide, by decide⟩

/-- C7, amended: for one source whose response is two issues assigned to `Alice`
followed by an issue without assignee, the aggregated map has exactly the two
keys `Alice`, with issue 1 and issue 2 in that order, and the empty name, with
issue 3; the page has exactly three issue rows, and they are in the order
issue 3, issue 1, issue 2, because the template's `range` visits the keys of the
map in sorted order and the empty name sorts before `Alice`. -/
theorem scenario_rows_in_key_order {ε : Type} (env : Env ε) (hR : env.RangeOk)
    (calls : List RedmineConfig) (c : RedmineConfig) (r1 r2 r3 : RedmineItem)
    (h1 : r1.AssignedTo.Name = "Alice") (h2 : r2.AssignedTo.Name = "Alice")
    (h3 : r3.AssignedTo.Name = "")
    (h : fetchResponse env calls c = .ok ⟨[r1, r2, r3]⟩) :
    ∃ m, (combineRedmineIssues env calls [c]).1 = (some m, none) ∧
      UserIssues.index m "Alice" = [issueOf c r1, issueOf c r2] ∧
      UserIssues.index m "" = [issueOf c r3] ∧
      (∀ k, k ∈ UserIssues.keys m ↔ k = "Alice" ∨ k = "") ∧
      (UserIssues.keys m).length = 2 ∧
      renderRows m =
        [rowText "" (issueOf c r3), rowText "Alice" (issueOf c r1),
          rowText "Alice" (issueOf c r2)] ∧
      renderPieces m =
        [.text templateHead] ++
          ([.text "\n        "] ++ rowPieces "" (issueOf c r3) ++ [.text "\n    "]) ++
          ([.text "\n        "] ++ (rowPieces "Alice" (issueOf c r1) ++
            rowPieces "Alice" (issueOf c r2)) ++ [.text "\n    "]) ++
          [.text templateTail] := by
  have hall : fetchAll env calls [c] = [(⟨[r1, r2, r3]⟩ : RedmineResponse)].map Except.ok := by
    simp [fetchAll, h]
  obtain ⟨m, hm, hn, hi, hk, _⟩ :=
    combineLoop_all_ok env hR [c] [⟨[r1, r2, r3]⟩] [] calls hall (by simp [UserIssues.keys])
  have hne : ¬ ("Alice" = "") := by decide
  have hne' : ¬ ("" = "Alice") := by decide
  have hA : UserIssues.index m "Alice" = [issueOf c r1, issueOf c r2] := by
    rw [hi]
    simp [issuesOf, UserIssues.index, issueOf, h1, h2, h3, List.filter]
  have hE : UserIssues.index m "" = [issueOf c r3] := by
    rw [hi]
    simp [issuesOf, UserIssues.index, issueOf, h1, h2, h3, List.filter]
  have hK : ∀ k, k ∈ UserIssues.keys m ↔ k = "Alice" ∨ k = "" := by
    intro k
    rw [hk]
    simp only [issuesOf, UserIssues.keys, List.map_nil, List.not_mem_nil, false_or, List.zip_cons_cons,
      List.zip_nil_right, List.flatMap_cons, List.flatMap_nil, List.append_nil, List.map_cons,
      List.mem_cons, exists_eq_or_imp, issueOf, h1, h2, h3]
    constructor
    · rintro (hh | hh | hh | ⟨_, hh, _⟩)
      · exact Or.inl hh.symm
      · exact Or.inl hh.symm
      · exact Or.inr hh.symm
      · exact hh.elim
    · rintro (hh | hh)
      · exact Or.inl hh.symm
      · exact Or.inr (Or.inr (Or.inl hh.symm))
  have hS : sortedKeys m = ["", "Alice"] := sorted_two_keys _ hn hK
  have hlen : (UserIssues.keys m).length = 2 := by
    have hp : (UserIssues.keys m).Perm ["Alice", ""] :=
      (List.perm_ext_iff_of_nodup hn (by decide)).mpr (by intro a; rw [hK a]; simp)
    exact hp.length_eq
  refine ⟨m, by simp [combineRedmineIssues, hm], hA, hE, hK, hlen, ?_, ?_⟩
  · simp [renderRows, hS, hA, hE]
  · simp [renderPieces, groupPieces, hS, hA, hE]

/-- C7, amended, at the source A, whose request URL is accepted, with `range`
visiting maps backwards. -/
theorem scenario_rows_in_key_order_witness :
    sampleEnv.NewRequest (requestURL sourceA) = none ∧
    itemA1.AssignedTo.Name = "Alice" ∧ itemA2.AssignedTo.Name = "Alice" ∧
    itemA3.AssignedTo.Name = "" ∧
    fetchResponse sampleEnv [] sourceA = .ok ⟨[itemA1, itemA2, itemA3]⟩ ∧
    ∃ m, (combineRedmineIssues sampleEnv [] [sourceA]).1 = (some m, none) ∧
      UserIssues.index m "Alice" = [issueOf sourceA itemA1, issueOf sourceA itemA2] ∧
      UserIssues.index m "" = [issueOf sourceA itemA3] ∧
      (∀ k, k ∈ UserIssues.keys m ↔ k = "Alice" ∨ k = "") ∧
      (UserIssues.keys m).length = 2 ∧
      renderRows m =
        [rowText "" (issueOf sourceA itemA3), rowText "Alice" (issueOf sourceA itemA1),
          rowText "Alice" (issueOf sourceA itemA2)] ∧
      renderPieces m =
        [.text templateHead] ++
          ([.text "\n        "] ++ rowPieces "" (issueOf sourceA itemA3) ++ [.text "\n    "]) ++
          ([.text "\n        "] ++ (rowPieces "Alice" (issueOf sourceA itemA1) ++
            rowPieces "Alice" (issueOf sourceA itemA2)) ++ [.text "\n    "]) ++
          [.text templateTail] :=
  ⟨by decide, rfl, rfl, rfl, rfl,
    scenario_rows_in_key_order sampleEnv (fun _ m => List.reverse_perm m) [] sourceA
      itemA1 itemA2 itemA3 rfl rfl rfl rfl⟩

end RedmineActivity
